import Mathlib

set_option linter.unusedVariables false

/-!
QtAsyncSql: the asynchronous query scheduler, its result record and the
connection registry.

A shallow embedding of `src/Database/AsyncQuery.{h,cpp}`,
`src/Database/AsyncQueryResult.{h,cpp}` and `src/Database/ConnectionManager.{h,cpp}`.

Conventions of the embedding:

* every member function becomes a function from the object's fields to the new
  fields, paired with the list of externally observable effects it performs, in
  program order (`Event`): taking and releasing the object's mutex, emitting a
  Qt signal, handing a task to the thread pool, waking the wait condition;
* `int` fields are `Int` (the task counter would need more than `2^31 - 1`
  simultaneously running tasks to overflow, which is undefined behaviour in C++
  and outside the model), `ulong` values that are only stored are `Nat`;
* reading a `QVector` outside its bounds is undefined behaviour in C++; the
  accessor that can do so returns `Option`, `none` standing for that access;
* the Qt library (`QSqlQuery`, `QSqlDatabase`, `QSqlRecord`) is not part of the
  repository: the little of it the code relies on is modelled next to its use,
  with the driver's answers supplied as data;
* in the runs of `World` a call of a member function is one step. The calls
  that touch the scheduler's state hold its mutex, which serialises them, so
  this grain is exact for the state and for what is emitted under the mutex.
  `taskCallback` emits `execDone` after releasing the mutex: the runs of
  `Threads` split the callback at the unlock, so that the emission of one pool
  thread can be overtaken by the callback and the emission of another.
-/

namespace Database

/-! ## Qt value types -/

/-- A `QVariant`: `invalid` is the default constructed `QVariant()`. -/
inductive QVariant where
  | invalid
  | int (n : Int)
  | string (s : String)
  deriving DecidableEq, Repr

/-- The `QSqlError::ErrorType` enumeration. -/
inductive ErrorType where
  | NoError
  | ConnectionError
  | StatementError
  | TransactionError
  | UnknownError
  deriving DecidableEq, Repr

/-- A `QSqlError`: its type and the driver's text. -/
structure QSqlError where
  type : ErrorType
  text : String
  deriving DecidableEq, Repr

/-- The default constructed `QSqlError()`. -/
def QSqlError.none : QSqlError := { type := ErrorType.NoError, text := "" }

/-- `QSqlError::isValid()`: an error is set. -/
def QSqlError.isValid (e : QSqlError) : Bool :=
  decide (e.type ≠ ErrorType.NoError)

/-- A `QSqlRecord` used as a head record: the field names, in column order. -/
structure QSqlRecord where
  fields : List String
  deriving DecidableEq, Repr

/-- `QSqlRecord::count()`. -/
def QSqlRecord.count (r : QSqlRecord) : Int := (r.fields.length : Int)

/-- Position of the first element satisfying `p`, counted from `i`, or `-1`. -/
def firstIndex (p : String → Bool) : List String → Int → Int
  | [], _ => -1
  | f :: fs, i => if p f then i else firstIndex p fs (i + 1)

/-- `QSqlRecord::indexOf(name)`: the position of the first field the library
matches with `name`, or `-1`. The library's comparison of a field name with the
requested name (case-insensitive, with an optional table qualifier) is the
parameter `fieldMatch`. -/
def QSqlRecord.indexOf (fieldMatch : String → String → Bool) (r : QSqlRecord)
    (name : String) : Int :=
  firstIndex (fun f => fieldMatch f name) r.fields 0

/-! ## QMap -/

/-- The order of `QString` keys, decided on the lists of characters so that
maps with several keys can be evaluated. -/
instance stringLtDecidable (a b : String) : Decidable (a < b) :=
  decidable_of_iff' _ String.lt_iff_toList_lt

/-- `QMap::insert` / `operator[] =` on a map kept as a key-sorted association
list: the value of an existing key is replaced, a new key is placed in order. -/
def QMap.insert {κ ν : Type} [DecidableEq κ] [LT κ] [DecidableRel (fun a b : κ => a < b)]
    (k : κ) (v : ν) : List (κ × ν) → List (κ × ν)
  | [] => [(k, v)]
  | (k2, v2) :: m =>
    if k = k2 then (k, v) :: m
    else if k < k2 then (k, v) :: (k2, v2) :: m
    else (k2, v2) :: QMap.insert k v m

/-- `QMap::value(key)` as an option: the value stored under `k`, if any. -/
def QMap.find {κ ν : Type} [DecidableEq κ] (k : κ) : List (κ × ν) → Option ν
  | [] => none
  | (k2, v2) :: m => if k = k2 then some v2 else QMap.find k m

/-- `QMap::contains(key)`. -/
def QMap.contains {κ ν : Type} [DecidableEq κ] (k : κ) (m : List (κ × ν)) : Bool :=
  (QMap.find k m).isSome

/-- `QMap::take(key)` restricted to its effect on the map: the entry is removed. -/
def QMap.remove {κ ν : Type} [DecidableEq κ] (k : κ) : List (κ × ν) → List (κ × ν)
  | [] => []
  | (k2, v2) :: m => if k = k2 then m else (k2, v2) :: QMap.remove k m

/-! ## AsyncQueryResult (`AsyncQueryResult.h`, `AsyncQueryResult.cpp`) -/

/-- The fields `_data`, `_record`, `_error` of `AsyncQueryResult`. -/
structure AsyncQueryResult where
  data : List (List QVariant)
  record : QSqlRecord
  error : QSqlError
  deriving DecidableEq, Repr

/-- `AsyncQueryResult::AsyncQueryResult()`. -/
def AsyncQueryResult.new : AsyncQueryResult :=
  { data := [], record := { fields := [] }, error := QSqlError.none }

/-- `AsyncQueryResult::error()`. -/
def AsyncQueryResult.getError (r : AsyncQueryResult) : QSqlError := r.error

/-- `AsyncQueryResult::headRecord()`. -/
def AsyncQueryResult.headRecord (r : AsyncQueryResult) : QSqlRecord := r.record

/-- `AsyncQueryResult::count()`: `_data.size()`. -/
def AsyncQueryResult.count (r : AsyncQueryResult) : Int := (r.data.length : Int)

/-- `AsyncQueryResult::value(int row, int col)`. The two range tests are the
source's; `_data[row][col]` is the unchecked `QVector` access, `none` when the
stored row has no element `col`. -/
def AsyncQueryResult.value (r : AsyncQueryResult) (row col : Int) : Option QVariant :=
  if row ≥ 0 ∧ row < (r.data.length : Int) then
    if col ≥ 0 ∧ col < r.record.count then
      (r.data.getD row.toNat [])[col.toNat]?
    else some QVariant.invalid
  else some QVariant.invalid

/-- `AsyncQueryResult::value(int row, const QString &col)`. -/
def AsyncQueryResult.valueByName (fieldMatch : String → String → Bool)
    (r : AsyncQueryResult) (row : Int) (col : String) : Option QVariant :=
  let colid := r.record.indexOf fieldMatch col
  r.value row colid

/-- `AsyncQueryResult::isValid()`. -/
def AsyncQueryResult.isValid (r : AsyncQueryResult) : Bool := !r.error.isValid

/-! ## AsyncQuery (`AsyncQuery.h`, `AsyncQuery.cpp`) -/

/-- The `AsyncQuery::Mode` enumeration. -/
inductive Mode where
  | Mode_Parallel
  | Mode_Fifo
  | Mode_SkipPrevious
  deriving DecidableEq, Repr

/-- The `AsyncQuery::QueuedQuery` record; `boundValues` is a `QMap`. -/
structure QueuedQuery where
  isPrepared : Bool
  query : String
  boundValues : List (String × QVariant)
  deriving DecidableEq, Repr

/-- The data members of a `SqlTaskPrivate` (its `_instance` is the one scheduler
of the model). -/
structure SqlTaskPrivate where
  query : QueuedQuery
  delayMs : Nat
  deriving DecidableEq, Repr

/-- What a member function does to the outside world, in program order. -/
inductive Event where
  | lock
  | unlock
  | busyChanged (busy : Bool)
  | execDone (result : AsyncQueryResult)
  | poolStart (task : SqlTaskPrivate)
  | wakeAll
  | deleteLater
  deriving DecidableEq, Repr

/-- The data members of `AsyncQuery` (logger, mutex and wait condition apart). -/
structure AsyncQuery where
  deleteOnDone : Bool
  delayMs : Nat
  mode : Mode
  taskCnt : Int
  result : AsyncQueryResult
  ququ : List QueuedQuery
  curQuery : QueuedQuery
  deriving DecidableEq, Repr

/-- `AsyncQuery::AsyncQuery(QObject*)`: the member initialisers; the members
without one are default constructed (`isPrepared` is given the value `false`). -/
def AsyncQuery.new : AsyncQuery :=
  { deleteOnDone := false
    delayMs := 0
    mode := Mode.Mode_Parallel
    taskCnt := 0
    result := AsyncQueryResult.new
    ququ := []
    curQuery := { isPrepared := false, query := "", boundValues := [] } }

/-- `AsyncQuery::setMode`. -/
def AsyncQuery.setMode (s : AsyncQuery) (mode : Mode) : AsyncQuery × List Event :=
  ({ s with mode := mode }, [Event.lock, Event.unlock])

/-- `AsyncQuery::mode`. -/
def AsyncQuery.getMode (s : AsyncQuery) : Mode × List Event :=
  (s.mode, [Event.lock, Event.unlock])

/-- `AsyncQuery::isRunning`. -/
def AsyncQuery.isRunning (s : AsyncQuery) : Bool × List Event :=
  (decide (s.taskCnt > 0), [Event.lock, Event.unlock])

/-- `AsyncQuery::result`. -/
def AsyncQuery.getResult (s : AsyncQuery) : AsyncQueryResult × List Event :=
  (s.result, [Event.lock, Event.unlock])

/-- `AsyncQuery::prepare`. -/
def AsyncQuery.prepare (s : AsyncQuery) (query : String) : AsyncQuery :=
  { s with curQuery := { s.curQuery with query := query } }

/-- `AsyncQuery::bindValue`. -/
def AsyncQuery.bindValue (s : AsyncQuery) (placeholder : String) (val : QVariant) :
    AsyncQuery :=
  { s with curQuery :=
      { s.curQuery with boundValues := QMap.insert placeholder val s.curQuery.boundValues } }

/-- `AsyncQuery::setDelayMs`. -/
def AsyncQuery.setDelayMs (s : AsyncQuery) (ms : Nat) : AsyncQuery × List Event :=
  ({ s with delayMs := ms }, [Event.lock, Event.unlock])

/-- `AsyncQuery::incTaskCount` (called with the mutex held). -/
def AsyncQuery.incTaskCount (s : AsyncQuery) : AsyncQuery × List Event :=
  ({ s with taskCnt := s.taskCnt + 1 },
   if s.taskCnt = 0 then [Event.busyChanged true] else [])

/-- `AsyncQuery::decTaskCount` (called with the mutex held). -/
def AsyncQuery.decTaskCount (s : AsyncQuery) : AsyncQuery × List Event :=
  ({ s with taskCnt := s.taskCnt - 1 },
   if s.taskCnt = 1 then [Event.busyChanged false] else [])

/-- The two statements `incTaskCount(); pool->start(task);` with
`task = new SqlTaskPrivate(this, _curQuery, _delayMs)`. -/
def AsyncQuery.spawnCurrent (s : AsyncQuery) : AsyncQuery × List Event :=
  let task : SqlTaskPrivate := { query := s.curQuery, delayMs := s.delayMs }
  let r := s.incTaskCount
  (r.1, r.2 ++ [Event.poolStart task])

/-- `AsyncQuery::startExecIntern`. -/
def AsyncQuery.startExecIntern (s : AsyncQuery) : AsyncQuery × List Event :=
  let r : AsyncQuery × List Event :=
    if s.mode = Mode.Mode_Parallel then
      s.spawnCurrent
    else
      if s.taskCnt = 0 then
        s.spawnCurrent
      else
        if s.mode = Mode.Mode_Fifo then
          ({ s with ququ := s.ququ ++ [s.curQuery] }, [])
        else
          ({ s with ququ := [s.curQuery] }, [])
  (r.1, [Event.lock] ++ r.2 ++ [Event.unlock])

/-- `AsyncQuery::startExec()`. -/
def AsyncQuery.startExec (s : AsyncQuery) : AsyncQuery × List Event :=
  AsyncQuery.startExecIntern { s with curQuery := { s.curQuery with isPrepared := true } }

/-- `AsyncQuery::startExec(const QString&)`. -/
def AsyncQuery.startExecQuery (s : AsyncQuery) (query : String) : AsyncQuery × List Event :=
  AsyncQuery.startExecIntern
    { s with curQuery := { s.curQuery with isPrepared := false, query := query } }

/-- The condition of `Q_ASSERT(_taskCnt > 0)` at the head of `taskCallback`
(the macro expands to nothing in a release build). -/
def AsyncQuery.taskCallbackAssert (s : AsyncQuery) : Bool := decide (s.taskCnt > 0)

/-- The part of `AsyncQuery::taskCallback` between `_mutex.lock()` and
`_waitcondition.wakeAll()`; `_ququ.dequeue()` takes the head of the queue. -/
def AsyncQuery.taskCallbackLocked (s : AsyncQuery) (result : AsyncQueryResult) :
    AsyncQuery × List Event :=
  let s1 := { s with result := result }
  if h : s1.mode ≠ Mode.Mode_Parallel ∧ s1.ququ ≠ [] then
    let query := s1.ququ.head h.2
    ({ s1 with ququ := s1.ququ.tail },
     [Event.poolStart { query := query, delayMs := s1.delayMs }])
  else
    s1.decTaskCount

/-- `AsyncQuery::taskCallback`. -/
def AsyncQuery.taskCallback (s : AsyncQuery) (result : AsyncQueryResult) :
    AsyncQuery × List Event :=
  let r := s.taskCallbackLocked result
  (r.1,
   [Event.lock] ++ r.2 ++ [Event.wakeAll, Event.unlock, Event.execDone result]
     ++ (if r.1.deleteOnDone then [Event.deleteLater] else []))

/-- `AsyncQuery::waitDone`. `woken` is what `QWaitCondition::wait` returns when
it is reached: `true` if the condition was woken within `msTimout`, `false` if
the time ran out. The second component tells whether the caller blocked. -/
def AsyncQuery.waitDone (s : AsyncQuery) (msTimout : Nat) (woken : Bool) :
    Bool × Bool × List Event :=
  if s.taskCnt > 0 then
    (woken, true, [Event.lock, Event.unlock, Event.lock, Event.unlock])
  else
    (true, false, [Event.lock, Event.unlock])

/-! ## ConnectionManager (`ConnectionManager.h`, `ConnectionManager.cpp`) -/

/-- The `QSql::NumericalPrecisionPolicy` enumeration. -/
inductive NumericalPrecisionPolicy where
  | LowPrecisionInt32
  | LowPrecisionInt64
  | LowPrecisionDouble
  | HighPrecision
  deriving DecidableEq, Repr

/-- The settings of a `QSqlDatabase` connection handle. `valid` is
`QSqlDatabase::isValid()` (the handle has a driver), `opened` is `isOpen()`. -/
structure QSqlDatabase where
  valid : Bool
  driverType : String
  connectionName : String
  hostName : String
  databaseName : String
  userName : String
  password : String
  port : Int
  precisionPolicy : NumericalPrecisionPolicy
  opened : Bool
  deriving DecidableEq, Repr

/-- The default constructed, invalid `QSqlDatabase()`. -/
def QSqlDatabase.invalid : QSqlDatabase :=
  { valid := false, driverType := "", connectionName := "", hostName := "",
    databaseName := "", userName := "", password := "", port := -1,
    precisionPolicy := NumericalPrecisionPolicy.LowPrecisionDouble, opened := false }

/-- `QSqlDatabase::addDatabase(type, connectionName)`: a new, closed handle with
the library's defaults (no host, database, user or password, port `-1`,
`LowPrecisionDouble`). -/
def QSqlDatabase.addDatabase (type connectionName : String) : QSqlDatabase :=
  { QSqlDatabase.invalid with
    valid := true, driverType := type, connectionName := connectionName }

/-- The data members of `ConnectionManager`; a thread is identified by the
address of its `QThread` object. -/
structure ConnectionManager where
  conns : List (Nat × QSqlDatabase)
  hostName : String
  port : Int
  userName : String
  databaseName : String
  precisionPolicy : NumericalPrecisionPolicy
  password : String
  type : String
  deriving DecidableEq, Repr

/-- `ConnectionManager::ConnectionManager(QObject*)`. -/
def ConnectionManager.new : ConnectionManager :=
  { conns := [], hostName := "", port := -1, userName := "", databaseName := "",
    precisionPolicy := NumericalPrecisionPolicy.LowPrecisionDouble, password := "",
    type := "QMYSQL" }

/-- `ConnectionManager::setType`. -/
def ConnectionManager.setType (c : ConnectionManager) (type : String) : ConnectionManager :=
  { c with type := type }

/-- `ConnectionManager::setHostName`. -/
def ConnectionManager.setHostName (c : ConnectionManager) (host : String) :
    ConnectionManager :=
  { c with hostName := host }

/-- `ConnectionManager::setPort`. -/
def ConnectionManager.setPort (c : ConnectionManager) (port : Int) : ConnectionManager :=
  { c with port := port }

/-- `ConnectionManager::setDatabaseName`. -/
def ConnectionManager.setDatabaseName (c : ConnectionManager) (name : String) :
    ConnectionManager :=
  { c with databaseName := name }

/-- `ConnectionManager::setUserName`. -/
def ConnectionManager.setUserName (c : ConnectionManager) (name : String) :
    ConnectionManager :=
  { c with userName := name }

/-- `ConnectionManager::setNumericalPrecisionPolicy`. -/
def ConnectionManager.setNumericalPrecisionPolicy (c : ConnectionManager)
    (precisionPolicy : NumericalPrecisionPolicy) : ConnectionManager :=
  { c with precisionPolicy := precisionPolicy }

/-- `ConnectionManager::setPassword`. -/
def ConnectionManager.setPassword (c : ConnectionManager) (password : String) :
    ConnectionManager :=
  { c with password := password }

/-- `ConnectionManager::connectionCount`. -/
def ConnectionManager.connectionCount (c : ConnectionManager) : Int :=
  (c.conns.length : Int)

/-- `ConnectionManager::connectionExists(t)`. -/
def ConnectionManager.connectionExists (c : ConnectionManager) (t : Nat) : Bool :=
  QMap.contains t c.conns

/-- The connection name `QString("CNM0x%1").arg((qlonglong)curThread, 0, 16)`. -/
def connectionName (curThread : Nat) : String :=
  "CNM0x" ++ String.mk (Nat.toDigits 16 curThread)

/-- Lines 156 to 162 of `ConnectionManager::open`: the handle added under the
thread's connection name and given the manager's settings. -/
def ConnectionManager.newConnection (c : ConnectionManager) (curThread : Nat) :
    QSqlDatabase :=
  let conname := connectionName curThread
  let dbconn := QSqlDatabase.addDatabase c.type conname
  let dbconn := { dbconn with hostName := c.hostName }
  let dbconn := { dbconn with databaseName := c.databaseName }
  let dbconn := { dbconn with userName := c.userName }
  let dbconn := { dbconn with password := c.password }
  let dbconn := { dbconn with port := c.port }
  dbconn

/-- `ConnectionManager::open`, called on thread `curThread`. `driverOpen` is the
answer of `QSqlDatabase::open()` for the configured handle. Returns the value
returned and the manager afterwards (the two log lines are not modelled). -/
def ConnectionManager.openConnection (c : ConnectionManager)
    (driverOpen : QSqlDatabase → Bool) (curThread : Nat) : Bool × ConnectionManager :=
  if QMap.contains curThread c.conns then
    (true, c)
  else
    let dbconn := c.newConnection curThread
    let ok := driverOpen dbconn
    if ok ≠ true then
      (false, c)
    else
      (true, { c with conns := QMap.insert curThread { dbconn with opened := true } c.conns })

/-- `ConnectionManager::threadConnection`, called on thread `curThread`. -/
def ConnectionManager.threadConnection (c : ConnectionManager) (curThread : Nat) :
    QSqlDatabase :=
  (QMap.find curThread c.conns).getD QSqlDatabase.invalid

/-- `ConnectionManager::closeAll`: every entry is taken out of the map. -/
def ConnectionManager.closeAll (c : ConnectionManager) : ConnectionManager :=
  { c with conns := [] }

/-- `ConnectionManager::closeOne(t)`. -/
def ConnectionManager.closeOne (c : ConnectionManager) (t : Nat) : ConnectionManager :=
  if !QMap.contains t c.conns then c
  else { c with conns := QMap.remove t c.conns }

/-! ## SqlTaskPrivate::run (`AsyncQuery.cpp`) -/

/-- One cell of the row a `QSqlQuery` is positioned on, as the driver reports
it: the answer of `isNull(i)` and of `value(i)`. -/
structure Cell where
  null : Bool
  value : QVariant
  deriving DecidableEq, Repr

/-- The state of a `QSqlQuery` object as far as `run` reads it: `record()`,
`lastError()`, the rows that successive `next()` calls will position on, and
the values bound so far. -/
structure QSqlQuery where
  record : QSqlRecord
  lastError : QSqlError
  rows : List (List Cell)
  bound : List (String × QVariant)
  deriving DecidableEq, Repr

/-- A freshly constructed `QSqlQuery(db)`. -/
def QSqlQuery.new : QSqlQuery :=
  { record := { fields := [] }, lastError := QSqlError.none, rows := [], bound := [] }

/-- `QSqlQuery::bindValue(placeholder, val)`. -/
def QSqlQuery.bindValue (q : QSqlQuery) (placeholder : String) (val : QVariant) : QSqlQuery :=
  { q with bound := q.bound ++ [(placeholder, val)] }

/-- `QSqlQuery::isNull(i)` on the row `row`: true for a null field and for a
field that does not exist. -/
def Cell.isNullAt (row : List Cell) (i : Nat) : Bool :=
  match row[i]? with
  | none => true
  | some c => c.null

/-- `QSqlQuery::value(i)` on the row `row`: an invalid `QVariant` for a field
that does not exist. -/
def Cell.valueAt (row : List Cell) (i : Nat) : QVariant :=
  match row[i]? with
  | none => QVariant.invalid
  | some c => c.value

/-- The answers of the database driver and of the library in front of it: for
each call of `run` the value the call returns and the query as the call leaves
it. A call can return `false` without an error being set on the query. -/
structure Driver where
  /-- `QSqlDatabase::open()` on a configured handle -/
  opens : QSqlDatabase → Bool
  /-- `QSqlQuery(db).prepare(text)`: the value returned and the query afterwards -/
  prepare : QSqlDatabase → String → Bool × QSqlQuery
  /-- `exec()` on a prepared query with its bound values: the value returned and
  the query afterwards -/
  execPrepared : QSqlDatabase → QSqlQuery → Bool × QSqlQuery
  /-- `QSqlQuery(db).exec(text)`: the value returned and the query afterwards -/
  exec : QSqlDatabase → String → Bool × QSqlQuery

/-- `QSqlQuery::next()` returns `false` on a query that is not active, and a
query is active only after an `exec` that returned `true`: the query as `run`
can read it after a call, `active` telling whether it is active. -/
def QSqlQuery.afterCall (active : Bool) (q : QSqlQuery) : QSqlQuery :=
  if active then q else { q with rows := [] }

/-- `QSqlQuery(db).prepare(text)`: the query is not executed yet. -/
def QSqlQuery.prepare (drv : Driver) (db : QSqlDatabase) (text : String) :
    Bool × QSqlQuery :=
  let p := drv.prepare db text
  (p.1, QSqlQuery.afterCall false p.2)

/-- `query.exec()` on the prepared query `q`. -/
def QSqlQuery.exec (drv : Driver) (db : QSqlDatabase) (q : QSqlQuery) : Bool × QSqlQuery :=
  let e := drv.execPrepared db q
  (e.1, QSqlQuery.afterCall e.1 e.2)

/-- `query.exec(text)` on a new query. -/
def QSqlQuery.execText (drv : Driver) (db : QSqlDatabase) (text : String) :
    Bool × QSqlQuery :=
  let e := drv.exec db text
  (e.1, QSqlQuery.afterCall e.1 e.2)

/-- The body of the `for` loop of `run`: the row `currow` built from the row the
query is positioned on. -/
def SqlTaskPrivate.readRow (cols : Int) (row : List Cell) : List QVariant :=
  (List.range cols.toNat).map
    (fun ii => if Cell.isNullAt row ii then QVariant.invalid else Cell.valueAt row ii)

/-- The `while (query.next())` loop of `run`: one `currow` appended per row, in
the driver's order. -/
def SqlTaskPrivate.readRows (cols : Int) : List (List Cell) → List (List QVariant)
  | [] => []
  | row :: rest => SqlTaskPrivate.readRow cols row :: SqlTaskPrivate.readRows cols rest

/-- Lines 77 to 93 of `run`: the `AsyncQueryResult` built from the query after
execution. -/
def SqlTaskPrivate.materialize (query : QSqlQuery) : AsyncQueryResult :=
  let record := query.record
  let error := query.lastError
  let cols := record.count
  { data := AsyncQueryResult.new.data ++ SqlTaskPrivate.readRows cols query.rows
    record := record
    error := error }

/-- Lines 56 to 75 of `run`: prepare, bind and execute the request on `db`.
The value `prepare` returns is kept in `succ`; the values the two `exec` calls
return are dropped, as in the source. -/
def SqlTaskPrivate.execute (t : SqlTaskPrivate) (drv : Driver) (db : QSqlDatabase) :
    QSqlQuery :=
  let query := QSqlQuery.new
  let r : Bool × QSqlQuery :=
    if t.query.isPrepared then
      let p := QSqlQuery.prepare drv db t.query.query
      (p.1, t.query.boundValues.foldl (fun q kv => q.bindValue kv.1 kv.2) p.2)
    else (true, query)
  if r.1 then
    if t.query.isPrepared then (QSqlQuery.exec drv db r.2).2
    else (QSqlQuery.execText drv db t.query.query).2
  else r.2

/-- `SqlTaskPrivate::run` on pool thread `curThread`, for the scheduler `inst`.
`none` is the failure of `Q_ASSERT(ret)` after `open()`. The sleep of `_delayMs`
has no effect on the state. -/
def SqlTaskPrivate.run (t : SqlTaskPrivate) (drv : Driver) (curThread : Nat)
    (conmgr : ConnectionManager) (inst : AsyncQuery) :
    Option (ConnectionManager × AsyncQuery × List Event) :=
  let opened : Option ConnectionManager :=
    if !conmgr.connectionExists curThread then
      let ret := conmgr.openConnection drv.opens curThread
      if ret.1 then some ret.2 else none
    else some conmgr
  match opened with
  | none => none
  | some conmgr1 =>
    let db := conmgr1.threadConnection curThread
    let result := SqlTaskPrivate.materialize (t.execute drv db)
    let r := inst.taskCallback result
    some (conmgr1, r.1, r.2)

/-! ## The scheduler in its environment

The scheduler runs against callers (threads calling the public functions) and
the global thread pool. `World` adds to the scheduler's fields what the
environment holds: the tasks handed to the pool that have not yet called
`taskCallback`, the threads blocked in `waitDone`, and a record of what has
happened so far. -/

/-- The task of a `poolStart` event. -/
def Event.task? : Event → Option SqlTaskPrivate
  | Event.poolStart t => some t
  | _ => none

/-- The result of an `execDone` event. -/
def Event.done? : Event → Option AsyncQueryResult
  | Event.execDone r => some r
  | _ => none

/-- The value of a `busyChanged` event. -/
def Event.busy? : Event → Option Bool
  | Event.busyChanged b => some b
  | _ => none

/-- The tasks handed to the pool by a sequence of events, in order. -/
def startedTasks (es : List Event) : List SqlTaskPrivate := es.filterMap Event.task?

/-- The requests for which a sequence of events starts a task, in order. -/
def startedQueries (es : List Event) : List QueuedQuery :=
  (startedTasks es).map SqlTaskPrivate.query

/-- The results carried by the `execDone` signals of a sequence of events. -/
def notifications (es : List Event) : List AsyncQueryResult := es.filterMap Event.done?

/-- The values carried by the `busyChanged` signals of a sequence of events. -/
def busyEvents (es : List Event) : List Bool := es.filterMap Event.busy?

/-- Whether the wait condition is woken by a sequence of events. -/
def wakes (es : List Event) : Bool := decide (Event.wakeAll ∈ es)

/-- The scheduler together with its environment. -/
structure World where
  /-- the scheduler object -/
  sched : AsyncQuery
  /-- tasks given to `pool->start` that have not yet called `taskCallback` -/
  pool : List SqlTaskPrivate
  /-- number of threads blocked in `waitDone` -/
  blocked : Nat
  /-- every return of `waitDone`: the value returned and `_taskCnt` at that moment -/
  waitReturns : List (Bool × Int)
  /-- all events so far, in order -/
  trace : List Event
  /-- the requests of the `startExec` calls so far (`_curQuery` at dispatch) -/
  submitted : List QueuedQuery
  /-- the tasks that have called `taskCallback`, in call order: the request of
  the task and the result it delivered -/
  completed : List (QueuedQuery × AsyncQueryResult)
  deriving DecidableEq, Repr

/-- A freshly constructed scheduler in an empty environment. -/
def World.new : World :=
  { sched := AsyncQuery.new, pool := [], blocked := 0, waitReturns := [],
    trace := [], submitted := [], completed := [] }

/-- What can happen next: a call of a public function from a caller thread, a
blocked `waitDone` running out of time, or the task at position `i` of the pool
finishing `run` and delivering `result` to `taskCallback`. -/
inductive Action where
  | setMode (mode : Mode)
  | setDelayMs (ms : Nat)
  | prepare (query : String)
  | bindValue (placeholder : String) (val : QVariant)
  | startExec
  | startExecQuery (query : String)
  | waitDone (msTimout : Nat)
  | waitTimeout
  | taskDone (i : Nat) (result : AsyncQueryResult)
  deriving DecidableEq, Repr

/-- The world after a dispatching call that left scheduler `q` and events `ev`. -/
def World.afterDispatch (w : World) (r : AsyncQuery × List Event) : World :=
  { w with
    sched := r.1
    pool := w.pool ++ startedTasks r.2
    trace := w.trace ++ r.2
    submitted := w.submitted ++ [r.1.curQuery] }

/-- One step of the world. `none`: the action cannot happen in this state
(no such task in the pool, no thread to time out). A task completion is one
step here: the signals `taskCallback` emits after `_mutex.unlock()` enter the
trace with the callback. This fixes nothing about the state, which changes
under the mutex only, but it orders the `execDone` signals as the callbacks;
`Threads.step` splits the callback at the unlock and does not. -/
def World.step (w : World) : Action → Option World
  | Action.setMode m =>
    let r := w.sched.setMode m
    some { w with sched := r.1, trace := w.trace ++ r.2 }
  | Action.setDelayMs ms =>
    let r := w.sched.setDelayMs ms
    some { w with sched := r.1, trace := w.trace ++ r.2 }
  | Action.prepare query => some { w with sched := w.sched.prepare query }
  | Action.bindValue p v => some { w with sched := w.sched.bindValue p v }
  | Action.startExec => some (w.afterDispatch w.sched.startExec)
  | Action.startExecQuery query => some (w.afterDispatch (w.sched.startExecQuery query))
  | Action.waitDone ms =>
    let r := w.sched.waitDone ms true
    if r.2.1 then
      some { w with blocked := w.blocked + 1 }
    else
      some { w with waitReturns := w.waitReturns ++ [(r.1, w.sched.taskCnt)],
                    trace := w.trace ++ r.2.2 }
  | Action.waitTimeout =>
    if w.blocked = 0 then none
    else
      some { w with blocked := w.blocked - 1,
                    waitReturns := w.waitReturns ++
                      [((w.sched.waitDone 0 false).1, w.sched.taskCnt)] }
  | Action.taskDone i result =>
    match w.pool[i]? with
    | none => none
    | some t =>
      let r := w.sched.taskCallback result
      let woken := if wakes r.2 then w.blocked else 0
      some { w with
        sched := r.1
        pool := w.pool.eraseIdx i ++ startedTasks r.2
        blocked := w.blocked - woken
        waitReturns := w.waitReturns ++ List.replicate woken (true, r.1.taskCnt)
        trace := w.trace ++ r.2
        completed := w.completed ++ [(t.query, result)] }

/-- Run a sequence of actions; `none` as soon as one of them cannot happen. -/
def World.run : World → List Action → Option World
  | w, [] => some w
  | w, a :: as =>
    match w.step a with
    | none => none
    | some w2 => World.run w2 as

/-- A guard holds before every action of a run. -/
def World.allows (ok : World → Action → Bool) : World → List Action → Bool
  | _, [] => true
  | w, a :: as =>
    ok w a &&
      (match w.step a with
       | none => true
       | some w2 => World.allows ok w2 as)

/-- The requests of the tasks that have called `taskCallback`, in call order. -/
def World.completedQueries (w : World) : List QueuedQuery := w.completed.map Prod.fst

/-- The action is a call of `setMode`. -/
def Action.isSetMode : Action → Bool
  | Action.setMode _ => true
  | _ => false

/-- The action dispatches a request (`startExec()` or `startExec(query)`). -/
def Action.isStartExec : Action → Bool
  | Action.startExec => true
  | Action.startExecQuery _ => true
  | _ => false

/-- The action is one of the calls that build and dispatch requests: `prepare`,
`bindValue`, `startExec()`, `startExec(query)`. -/
def Action.isRequestCall : Action → Bool
  | Action.prepare _ => true
  | Action.bindValue _ _ => true
  | Action.startExec => true
  | Action.startExecQuery _ => true
  | _ => false

/-- The action is a task completion. -/
def Action.isTaskDone : Action → Bool
  | Action.taskDone _ _ => true
  | _ => false

/-- A scheduler `q` with nothing running and no history. -/
def World.idle (q : AsyncQuery) : World :=
  { sched := q, pool := [], blocked := 0, waitReturns := [],
    trace := [], submitted := [], completed := [] }


/-! ## Example runs -/

/-- A new scheduler put in SkipPrevious mode. -/
def skipSched : AsyncQuery := (AsyncQuery.new.setMode Mode.Mode_SkipPrevious).1

/-- The world in which request A has been submitted and is running. -/
def skipDemoWorld : World :=
  ((World.idle skipSched).run [Action.startExecQuery "A"]).getD World.new

/-- The task running for request A. -/
def skipDemoTask : SqlTaskPrivate :=
  { query := { isPrepared := false, query := "A", boundValues := [] }, delayMs := 0 }

/-- Requests B and C submitted while A runs. -/
def skipDemoSubs : List Action := [Action.startExecQuery "B", Action.startExecQuery "C"]

/-- Three requests in Parallel mode; the tasks complete out of order. -/
def parallelDemo : List Action :=
  [Action.startExecQuery "P1", Action.startExecQuery "P2", Action.taskDone 1 AsyncQueryResult.new,
   Action.startExecQuery "P3", Action.taskDone 1 AsyncQueryResult.new,
   Action.taskDone 0 AsyncQueryResult.new]

/-- The world after `parallelDemo` on a new scheduler. -/
def parallelDemoWorld : World := ((World.idle AsyncQuery.new).run parallelDemo).getD World.new

/-- Two tasks started in Parallel mode, then a switch to Fifo mode. -/
def switchToFifoDemo : List Action :=
  [Action.startExecQuery "A", Action.startExecQuery "B", Action.setMode Mode.Mode_Fifo]

/-- A request queued in Fifo mode, then a switch to Parallel mode. -/
def switchToParallelDemo : List Action :=
  [Action.setMode Mode.Mode_Fifo, Action.startExecQuery "A", Action.startExecQuery "B",
   Action.setMode Mode.Mode_Parallel]

/-- A run that changes the mode only while the scheduler is idle. -/
def switchWhenIdleDemo : List Action :=
  [Action.setMode Mode.Mode_Fifo, Action.startExecQuery "A", Action.startExecQuery "B",
   Action.taskDone 0 AsyncQueryResult.new, Action.taskDone 0 AsyncQueryResult.new,
   Action.setMode Mode.Mode_Parallel, Action.startExecQuery "C", Action.startExecQuery "D"]

/-- The world after `switchWhenIdleDemo` on a new scheduler. -/
def switchWhenIdleWorld : World := (World.new.run switchWhenIdleDemo).getD World.new

/-- Guard on a run: `setMode(Mode_Fifo)` and `setMode(Mode_SkipPrevious)` are
called only while at most one task is in flight. -/
def setModeWhenSingle (w : World) : Action → Bool
  | Action.setMode m => decide (m = Mode.Mode_Parallel ∨ w.sched.taskCnt ≤ 1)
  | _ => true

/-- Guard on a run: `setMode(Mode_Parallel)` is called only while the pending
queue is empty. -/
def setParallelWhenEmpty (w : World) : Action → Bool
  | Action.setMode m => decide (m ≠ Mode.Mode_Parallel ∨ w.sched.ququ = [])
  | _ => true

/-- The sequence `true, false, true, ...` of length `n`. -/
def alternation (n : Nat) : List Bool := (List.range n).map (fun i => decide (i % 2 = 0))

/-- Two busy periods, the first with a handoff, with a mode change in between. -/
def busyDemo : List Action :=
  [Action.setMode Mode.Mode_Fifo, Action.startExecQuery "A", Action.startExecQuery "B",
   Action.taskDone 0 AsyncQueryResult.new, Action.taskDone 0 AsyncQueryResult.new,
   Action.setMode Mode.Mode_Parallel, Action.startExecQuery "C", Action.startExecQuery "D",
   Action.taskDone 1 AsyncQueryResult.new]

/-- The world after `busyDemo` on a new scheduler. -/
def busyDemoWorld : World := (World.new.run busyDemo).getD World.new

/-- Fifo mode: A runs, B is queued, a thread blocks in `waitDone`, A completes. -/
def waitDemo : List Action :=
  [Action.setMode Mode.Mode_Fifo, Action.startExecQuery "A", Action.startExecQuery "B",
   Action.waitDone 1000, Action.taskDone 0 AsyncQueryResult.new]

/-- The world after `waitDemo` on a new scheduler. -/
def waitDemoWorld : World := (World.new.run waitDemo).getD World.new

/-- The scheduler before the last action of `waitDemo`: Fifo mode, one task in
flight, one request queued. -/
def waitDemoSched : AsyncQuery :=
  ((World.new.run (waitDemo.take 4)).getD World.new).sched

/-- A query positioned before two rows of two columns; the second cell of the
first row is null. -/
def roundTripQuery : QSqlQuery :=
  { record := { fields := ["id", "name"] }
    lastError := QSqlError.none
    rows := [[{ null := false, value := QVariant.int 1 },
              { null := true, value := QVariant.string "ignored" }],
             [{ null := false, value := QVariant.int 2 },
              { null := false, value := QVariant.string "two" }]]
    bound := [] }

/-- A manager holding an open connection for thread 7. -/
def registryDemo : ConnectionManager :=
  (ConnectionManager.new.openConnection (fun _ => true) 7).2

/-- A result of two rows over the columns `id` and `name`. -/
def cellDemo : AsyncQueryResult := SqlTaskPrivate.materialize roundTripQuery

/-! ## The kinds of step of the world -/

/-- A step that neither dispatches nor completes: counter, queue, pool and
signals are as before. -/
def World.Quiet (w w2 : World) (a : Action) : Prop :=
  a.isStartExec = false ∧ a.isTaskDone = false ∧
  w2.sched.taskCnt = w.sched.taskCnt ∧ w2.sched.ququ = w.sched.ququ ∧
  w2.pool = w.pool ∧ startedTasks w2.trace = startedTasks w.trace ∧
  notifications w2.trace = notifications w.trace ∧
  busyEvents w2.trace = busyEvents w.trace ∧
  w2.submitted = w.submitted ∧ w2.completed = w.completed

/-- A dispatch that starts a task for the current request at once. -/
def World.Spawn (w w2 : World) (a : Action) : Prop :=
  a.isStartExec = true ∧ (w.sched.mode = Mode.Mode_Parallel ∨ w.sched.taskCnt = 0) ∧
  w2.sched.taskCnt = w.sched.taskCnt + 1 ∧ w2.sched.ququ = w.sched.ququ ∧
  w2.pool = w.pool ++ [{ query := w2.sched.curQuery, delayMs := w.sched.delayMs }] ∧
  startedTasks w2.trace =
    startedTasks w.trace ++ [{ query := w2.sched.curQuery, delayMs := w.sched.delayMs }] ∧
  notifications w2.trace = notifications w.trace ∧
  busyEvents w2.trace = busyEvents w.trace ++ (if w.sched.taskCnt = 0 then [true] else []) ∧
  w2.submitted = w.submitted ++ [w2.sched.curQuery] ∧ w2.completed = w.completed

/-- A dispatch that queues the current request. -/
def World.Enqueue (w w2 : World) (a : Action) : Prop :=
  a.isStartExec = true ∧ w.sched.mode ≠ Mode.Mode_Parallel ∧ w.sched.taskCnt ≠ 0 ∧
  w2.sched.taskCnt = w.sched.taskCnt ∧
  w2.sched.ququ =
    (if w.sched.mode = Mode.Mode_Fifo then w.sched.ququ else []) ++ [w2.sched.curQuery] ∧
  w2.pool = w.pool ∧ startedTasks w2.trace = startedTasks w.trace ∧
  notifications w2.trace = notifications w.trace ∧
  busyEvents w2.trace = busyEvents w.trace ∧
  w2.submitted = w.submitted ++ [w2.sched.curQuery] ∧ w2.completed = w.completed

/-- A completion that starts the head of the queue. -/
def World.Handoff (w w2 : World) (a : Action) : Prop :=
  ∃ i r t x rest, a = Action.taskDone i r ∧ w.pool[i]? = some t ∧
  w.sched.mode ≠ Mode.Mode_Parallel ∧ w.sched.ququ = x :: rest ∧
  w2.sched.taskCnt = w.sched.taskCnt ∧ w2.sched.ququ = rest ∧
  w2.pool = w.pool.eraseIdx i ++ [{ query := x, delayMs := w.sched.delayMs }] ∧
  startedTasks w2.trace =
    startedTasks w.trace ++ [{ query := x, delayMs := w.sched.delayMs }] ∧
  notifications w2.trace = notifications w.trace ++ [r] ∧
  busyEvents w2.trace = busyEvents w.trace ∧
  w2.submitted = w.submitted ∧ w2.completed = w.completed ++ [(t.query, r)]

/-- A completion that starts nothing. -/
def World.Release (w w2 : World) (a : Action) : Prop :=
  ∃ i r t, a = Action.taskDone i r ∧ w.pool[i]? = some t ∧
  (w.sched.mode = Mode.Mode_Parallel ∨ w.sched.ququ = []) ∧
  w2.sched.taskCnt = w.sched.taskCnt - 1 ∧ w2.sched.ququ = w.sched.ququ ∧
  w2.pool = w.pool.eraseIdx i ∧ startedTasks w2.trace = startedTasks w.trace ∧
  notifications w2.trace = notifications w.trace ++ [r] ∧
  busyEvents w2.trace = busyEvents w.trace ++ (if w.sched.taskCnt = 1 then [false] else []) ∧
  w2.submitted = w.submitted ∧ w2.completed = w.completed ++ [(t.query, r)]


/-! ## Invariants of runs: the properties -/

/-- The counter is the number of tasks in the pool, and the `execDone` signals
carry the results delivered by the completed tasks, in order. -/
def World.Accounted (w : World) : Prop :=
  w.sched.taskCnt = (w.pool.length : Int) ∧
  notifications w.trace = w.completed.map Prod.snd

/-- What holds along a run that stays in SkipPrevious mode, relative to the
world `base` it started from: the requests submitted (`later`), started (`l`)
and completed (`done`) since then. -/
def World.SkipInv (base w : World) : Prop :=
  w.sched.mode = Mode.Mode_SkipPrevious ∧ w.sched.taskCnt = (w.pool.length : Int) ∧
  w.pool.length ≤ 1 ∧ w.sched.ququ.length ≤ 1 ∧ (w.pool = [] → w.sched.ququ = []) ∧
  ∃ later l done,
    w.submitted = base.submitted ++ later ∧
    startedQueries w.trace = startedQueries base.trace ++ l ∧
    w.completed = base.completed ++ done ∧
    notifications w.trace = notifications base.trace ++ done.map Prod.snd ∧
    done.map Prod.fst ++ w.pool.map SqlTaskPrivate.query =
      base.pool.map SqlTaskPrivate.query ++ l ∧
    (l ++ w.sched.ququ).Sublist (base.sched.ququ ++ later)

/-- What holds along a run that stays in Parallel mode, from a scheduler whose
queue was `ququ0`. -/
def World.ParallelInv (ququ0 : List QueuedQuery) (w : World) : Prop :=
  w.sched.mode = Mode.Mode_Parallel ∧ w.Accounted ∧ w.sched.ququ = ququ0 ∧
  startedQueries w.trace = w.submitted ∧
  w.completed.length + w.pool.length = w.submitted.length

/-- Along every run the busy signals alternate, and the last one says whether
tasks are in flight. -/
def World.BusyInv (w : World) : Prop :=
  w.sched.taskCnt = (w.pool.length : Int) ∧
  ∃ n, busyEvents w.trace = alternation n ∧ (n % 2 = 0 ↔ w.sched.taskCnt = 0)

/-! ## Lock discipline -/

/-- The event is the emission of one of the two signals. -/
def Event.isSignal : Event → Bool
  | Event.busyChanged _ => true
  | Event.execDone _ => true
  | _ => false

/-- The signals of a sequence of events that are emitted while the mutex is
held; `held` tells whether it is held before the first event. -/
def emittedUnderLock : Bool → List Event → List Event
  | _, [] => []
  | held, e :: es =>
    match e with
    | Event.lock => emittedUnderLock true es
    | Event.unlock => emittedUnderLock false es
    | _ =>
      if held && e.isSignal then e :: emittedUnderLock held es
      else emittedUnderLock held es

/-- A new scheduler with one request queued behind a running task, in Fifo mode. -/
def lockDemoSched : AsyncQuery :=
  ((World.new.run [Action.setMode Mode.Mode_Fifo, Action.startExecQuery "A",
    Action.startExecQuery "B"]).getD World.new).sched


/-! ## Statement failure -/

/-- Lines 62 to 66 of `run`: every bound value of the request is bound to the
query, in key order. -/
def SqlTaskPrivate.bindAll (t : SqlTaskPrivate) (q : QSqlQuery) : QSqlQuery :=
  t.query.boundValues.foldl (fun q kv => q.bindValue kv.1 kv.2) q

/-- The error a driver reports for a statement it rejects. -/
def syntaxError : QSqlError := { type := ErrorType.StatementError, text := "syntax error" }

/-- One row of one column holding `1`. -/
def oneRow : QSqlQuery :=
  { QSqlQuery.new with record := { fields := ["n"] },
                       rows := [[{ null := false, value := QVariant.int 1 }]] }

/-- A driver that opens every connection. The text `BAD` fails at the driver
with a syntax error; the empty text is refused before the driver is reached,
the call returning `false` with no error set; every other statement succeeds
with one row of one column. -/
def demoDriver : Driver :=
  { opens := fun _ => true
    prepare := fun _ text =>
      if text = "BAD" then (false, { QSqlQuery.new with lastError := syntaxError })
      else if text = "" then (false, QSqlQuery.new)
      else (true, QSqlQuery.new)
    execPrepared := fun _ q =>
      (true, { q with record := oneRow.record, rows := oneRow.rows })
    exec := fun _ text =>
      if text = "BAD" then (false, { QSqlQuery.new with lastError := syntaxError })
      else if text = "" then (false, QSqlQuery.new)
      else (true, oneRow) }

/-- A task for the raw request `BAD`. -/
def badTask : SqlTaskPrivate :=
  { query := { isPrepared := false, query := "BAD", boundValues := [] }, delayMs := 0 }

/-- A task for the raw request with the empty text, as `startExec("")` starts. -/
def emptyTask : SqlTaskPrivate :=
  { query := { isPrepared := false, query := "", boundValues := [] }, delayMs := 0 }

/-! ## Configuration -/

/-- A manager configured through every setter, with the precision policy set
to `HighPrecision`. -/
def configuredManager : ConnectionManager :=
  ((((((ConnectionManager.new.setType "QSQLITE").setHostName "dbhost").setPort 5432
    ).setDatabaseName "northwind").setUserName "alice").setPassword "secret"
    ).setNumericalPrecisionPolicy NumericalPrecisionPolicy.HighPrecision


/-! ## Accounting and idle states -/

/-- The counter is the number of tasks in the pool, and the tasks started are
the completed ones and the ones in the pool. -/
def World.CountInv (w : World) : Prop :=
  w.sched.taskCnt = (w.pool.length : Int) ∧
  (startedTasks w.trace).length = w.completed.length + w.pool.length

/-- Guard on a run: `setMode` is called only while no task is in flight. -/
def setModeWhenIdle (w : World) : Action → Bool
  | Action.setMode _ => decide (w.sched.taskCnt = 0)
  | _ => true

/-- Along a run that changes the mode only when idle: an idle scheduler, and a
scheduler in Parallel mode, has an empty queue. -/
def World.IdleInv (w : World) : Prop :=
  w.sched.taskCnt = (w.pool.length : Int) ∧
  (w.sched.taskCnt = 0 → w.sched.ququ = []) ∧
  (w.sched.mode = Mode.Mode_Parallel → w.sched.ququ = [])

/-- Fifo mode: two requests, both tasks complete. -/
def idleDemo : List Action :=
  [Action.setMode Mode.Mode_Fifo, Action.startExecQuery "A", Action.startExecQuery "B",
   Action.taskDone 0 AsyncQueryResult.new, Action.taskDone 0 AsyncQueryResult.new]

/-- The world after `idleDemo` on a new scheduler. -/
def idleDemoWorld : World := (World.new.run idleDemo).getD World.new


/-! ## Bound values -/

/-- The effect of one action on the value last bound to `name`. -/
def bindStep (name : String) (cur : Option QVariant) : Action → Option QVariant
  | Action.bindValue p v => if name = p then some v else cur
  | _ => cur

/-- The value most recently passed to `bindValue` for `name` by a sequence of
actions, if there is one. -/
def lastBound (name : String) (acts : List Action) : Option QVariant :=
  acts.foldl (bindStep name) none

/-- A first request with `:price` bound, then a second query with `:limit`
bound and `:price` left alone, and a value bound twice. -/
def bindDemo : List Action :=
  [Action.prepare "SELECT * FROM Products WHERE UnitPrice < :price",
   Action.bindValue ":price" (QVariant.int 10), Action.startExec,
   Action.prepare "SELECT * FROM Orders LIMIT :limit",
   Action.bindValue ":limit" (QVariant.int 3), Action.bindValue ":limit" (QVariant.int 5)]

/-- The world after `bindDemo` on a new scheduler. -/
def bindDemoWorld : World := (World.new.run bindDemo).getD World.new


/-! ## The completion at the grain of the mutex -/

/-- `AsyncQuery::taskCallback` from `_mutex.lock()` to `_mutex.unlock()`. -/
def AsyncQuery.taskCallbackCritical (s : AsyncQuery) (result : AsyncQueryResult) :
    AsyncQuery × List Event :=
  let r := s.taskCallbackLocked result
  (r.1, [Event.lock] ++ r.2 ++ [Event.wakeAll, Event.unlock])

/-- `AsyncQuery::taskCallback` after `_mutex.unlock()`, on the scheduler `s`
the critical section left: `emit execDone(result)` and, for a one-shot object,
`deleteLater()`. -/
def AsyncQuery.taskCallbackTail (s : AsyncQuery) (result : AsyncQueryResult) : List Event :=
  [Event.execDone result] ++ (if s.deleteOnDone then [Event.deleteLater] else [])

/-- The world together with the pool threads that have released the mutex in
`taskCallback` and have not yet emitted: for each of them what it still does. -/
structure Threads where
  world : World
  leaving : List (List Event)
  deriving DecidableEq, Repr

/-- What can happen next at this grain: an action of the world as one step
(for a task completion: a callback whose thread emits at once), the task at
position `i` of the pool running `taskCallback` up to the unlock, or the
thread at position `j` of `leaving` doing the rest of its callback. -/
inductive Move where
  | call (a : Action)
  | leave (i : Nat) (result : AsyncQueryResult)
  | emit (j : Nat)
  deriving DecidableEq, Repr

/-- One step at the grain of the mutex. -/
def Threads.step (f : Threads) : Move → Option Threads
  | Move.call a =>
    match f.world.step a with
    | none => none
    | some w => some { f with world := w }
  | Move.leave i result =>
    match f.world.pool[i]? with
    | none => none
    | some t =>
      let r := f.world.sched.taskCallbackCritical result
      let woken := if wakes r.2 then f.world.blocked else 0
      some
        { world :=
            { f.world with
              sched := r.1
              pool := f.world.pool.eraseIdx i ++ startedTasks r.2
              blocked := f.world.blocked - woken
              waitReturns := f.world.waitReturns ++ List.replicate woken (true, r.1.taskCnt)
              trace := f.world.trace ++ r.2
              completed := f.world.completed ++ [(t.query, result)] }
          leaving := f.leaving ++ [r.1.taskCallbackTail result] }
  | Move.emit j =>
    match f.leaving[j]? with
    | none => none
    | some evs =>
      some { world := { f.world with trace := f.world.trace ++ evs }
             leaving := f.leaving.eraseIdx j }

/-- Run a sequence of moves; `none` as soon as one of them cannot happen. -/
def Threads.run : Threads → List Move → Option Threads
  | f, [] => some f
  | f, m :: ms =>
    match f.step m with
    | none => none
    | some f2 => Threads.run f2 ms

/-- The move is a call of `setMode`. -/
def Move.isSetMode : Move → Bool
  | Move.call a => a.isSetMode
  | _ => false

theorem startedTasks_append (a b : List Event) :
    startedTasks (a ++ b) = startedTasks a ++ startedTasks b := by
  simp [startedTasks]

theorem startedQueries_append (a b : List Event) :
    startedQueries (a ++ b) = startedQueries a ++ startedQueries b := by
  simp [startedQueries, startedTasks_append]

theorem busyEvents_append (a b : List Event) :
    busyEvents (a ++ b) = busyEvents a ++ busyEvents b := by
  simp [busyEvents]

/-- A dispatch that spawns: Parallel mode, or nothing in flight. -/
theorem startExecIntern_spawn (s : AsyncQuery)
    (h : s.mode = Mode.Mode_Parallel ∨ s.taskCnt = 0) :
    s.startExecIntern =
      ({ s with taskCnt := s.taskCnt + 1 },
       [Event.lock] ++ (if s.taskCnt = 0 then [Event.busyChanged true] else [])
         ++ [Event.poolStart { query := s.curQuery, delayMs := s.delayMs }]
         ++ [Event.unlock]) := by
  unfold AsyncQuery.startExecIntern AsyncQuery.spawnCurrent AsyncQuery.incTaskCount
  rcases h with h | h
  · simp [h]
  · by_cases hm : s.mode = Mode.Mode_Parallel <;> simp [h, hm]

/-- A dispatch in Fifo mode with a task in flight: the request is appended. -/
theorem startExecIntern_fifo (s : AsyncQuery)
    (hm : s.mode = Mode.Mode_Fifo) (hc : s.taskCnt ≠ 0) :
    s.startExecIntern =
      ({ s with ququ := s.ququ ++ [s.curQuery] }, [Event.lock, Event.unlock]) := by
  unfold AsyncQuery.startExecIntern
  simp [hm, hc]

/-- A dispatch in SkipPrevious mode with a task in flight: the request replaces
the queue. -/
theorem startExecIntern_skip (s : AsyncQuery)
    (hm : s.mode = Mode.Mode_SkipPrevious) (hc : s.taskCnt ≠ 0) :
    s.startExecIntern =
      ({ s with ququ := [s.curQuery] }, [Event.lock, Event.unlock]) := by
  unfold AsyncQuery.startExecIntern
  simp [hm, hc]

/-- A completion that hands the slot to the head of the queue. -/
theorem taskCallback_handoff (s : AsyncQuery) (result : AsyncQueryResult)
    (x : QueuedQuery) (rest : List QueuedQuery)
    (hm : s.mode ≠ Mode.Mode_Parallel) (hq : s.ququ = x :: rest) :
    s.taskCallback result =
      ({ s with result := result, ququ := rest },
       [Event.lock, Event.poolStart { query := x, delayMs := s.delayMs },
        Event.wakeAll, Event.unlock, Event.execDone result]
        ++ (if s.deleteOnDone then [Event.deleteLater] else [])) := by
  unfold AsyncQuery.taskCallback AsyncQuery.taskCallbackLocked
  simp [hm, hq]

/-- A completion that gives the slot back. -/
theorem taskCallback_release (s : AsyncQuery) (result : AsyncQueryResult)
    (h : s.mode = Mode.Mode_Parallel ∨ s.ququ = []) :
    s.taskCallback result =
      ({ s with result := result, taskCnt := s.taskCnt - 1 },
       [Event.lock] ++ (if s.taskCnt = 1 then [Event.busyChanged false] else [])
        ++ [Event.wakeAll, Event.unlock, Event.execDone result]
        ++ (if s.deleteOnDone then [Event.deleteLater] else [])) := by
  unfold AsyncQuery.taskCallback AsyncQuery.taskCallbackLocked AsyncQuery.decTaskCount
  have hc : ¬ (s.mode ≠ Mode.Mode_Parallel ∧ s.ququ ≠ []) := by
    rcases h with h | h <;> simp [h]
  simp [hc]


/-- A completion emits exactly one `execDone`, carrying the delivered result. -/
theorem notifications_taskCallback (s : AsyncQuery) (r : AsyncQueryResult) :
    notifications (s.taskCallback r).2 = [r] := by
  by_cases hc : s.mode = Mode.Mode_Parallel ∨ s.ququ = []
  · rw [taskCallback_release s r hc]
    by_cases h1 : s.taskCnt = 1 <;> by_cases hd : s.deleteOnDone = true <;>
      simp [notifications, Event.done?, h1, hd]
  · have hp : s.mode ≠ Mode.Mode_Parallel := fun e => hc (Or.inl e)
    obtain ⟨x, rest, hq⟩ : ∃ x rest, s.ququ = x :: rest := by
      cases hq : s.ququ with
      | nil => exact absurd (Or.inr hq) hc
      | cons x rest => exact ⟨x, rest, rfl⟩
    rw [taskCallback_handoff s r x rest hp hq]
    by_cases hd : s.deleteOnDone = true <;> simp [notifications, Event.done?, hd]

theorem dispatch_kinds (w : World) (q : AsyncQuery) (a : Action) (ha : a.isStartExec = true)
    (hmode : q.mode = w.sched.mode) (hcnt : q.taskCnt = w.sched.taskCnt)
    (hqu : q.ququ = w.sched.ququ) (hdel : q.delayMs = w.sched.delayMs) :
    World.Spawn w (w.afterDispatch q.startExecIntern) a ∨
    World.Enqueue w (w.afterDispatch q.startExecIntern) a := by
  by_cases h : q.mode = Mode.Mode_Parallel ∨ q.taskCnt = 0
  · left
    rw [startExecIntern_spawn q h]
    rw [hmode, hcnt] at h
    refine ⟨ha, h, ?_⟩
    by_cases h0 : w.sched.taskCnt = 0 <;>
      simp [World.afterDispatch, startedTasks, notifications, busyEvents, Event.task?,
        Event.done?, Event.busy?, hcnt, hqu, hdel, h0]
  · right
    have hp : q.mode ≠ Mode.Mode_Parallel := fun e => h (Or.inl e)
    have hc : q.taskCnt ≠ 0 := fun e => h (Or.inr e)
    by_cases hf : q.mode = Mode.Mode_Fifo
    · rw [startExecIntern_fifo q hf hc]
      rw [hmode] at hp hf
      rw [hcnt] at hc
      refine ⟨ha, hp, hc, ?_⟩
      simp [World.afterDispatch, startedTasks, notifications, busyEvents, Event.task?,
        Event.done?, Event.busy?, hcnt, hqu, hf]
    · have hs : q.mode = Mode.Mode_SkipPrevious := by
        cases hq : q.mode <;> simp_all
      rw [startExecIntern_skip q hs hc]
      rw [hmode] at hp hf
      rw [hcnt] at hc
      refine ⟨ha, hp, hc, ?_⟩
      simp [World.afterDispatch, startedTasks, notifications, busyEvents, Event.task?,
        Event.done?, Event.busy?, hcnt, hf]


theorem completion_kinds (w : World) (i : Nat) (r : AsyncQueryResult) (t : SqlTaskPrivate)
    (ht : w.pool[i]? = some t) (w2 : World)
    (h : w.step (Action.taskDone i r) = some w2) :
    World.Handoff w w2 (Action.taskDone i r) ∨ World.Release w w2 (Action.taskDone i r) := by
  simp only [World.step, ht, Option.some.injEq] at h
  subst h
  by_cases hc : w.sched.mode = Mode.Mode_Parallel ∨ w.sched.ququ = []
  · right
    refine ⟨i, r, t, rfl, ht, hc, ?_⟩
    rw [taskCallback_release w.sched r hc]
    by_cases h1 : w.sched.taskCnt = 1 <;> by_cases hd : w.sched.deleteOnDone = true <;>
      simp [startedTasks, notifications, busyEvents, Event.task?, Event.done?,
        Event.busy?, h1, hd]
  · left
    have hp : w.sched.mode ≠ Mode.Mode_Parallel := fun e => hc (Or.inl e)
    obtain ⟨x, rest, hq⟩ : ∃ x rest, w.sched.ququ = x :: rest := by
      cases hq : w.sched.ququ with
      | nil => exact absurd (Or.inr hq) hc
      | cons x rest => exact ⟨x, rest, rfl⟩
    refine ⟨i, r, t, x, rest, rfl, ht, hp, hq, ?_⟩
    rw [taskCallback_handoff w.sched r x rest hp hq]
    by_cases hd : w.sched.deleteOnDone = true <;>
      simp [startedTasks, notifications, busyEvents, Event.task?, Event.done?,
        Event.busy?, hd]

/-- Every step of the world is of one of the five kinds. -/
theorem step_kinds (w w2 : World) (a : Action) (h : w.step a = some w2) :
    World.Quiet w w2 a ∨ World.Spawn w w2 a ∨ World.Enqueue w w2 a ∨
    World.Handoff w w2 a ∨ World.Release w w2 a := by
  cases a with
  | setMode m =>
    simp only [World.step, AsyncQuery.setMode, Option.some.injEq] at h
    subst h
    left
    simp [World.Quiet, Action.isStartExec, Action.isTaskDone, startedTasks, notifications,
      busyEvents, Event.task?, Event.done?, Event.busy?]
  | setDelayMs ms =>
    simp only [World.step, AsyncQuery.setDelayMs, Option.some.injEq] at h
    subst h
    left
    simp [World.Quiet, Action.isStartExec, Action.isTaskDone, startedTasks, notifications,
      busyEvents, Event.task?, Event.done?, Event.busy?]
  | prepare query =>
    simp only [World.step, AsyncQuery.prepare, Option.some.injEq] at h
    subst h
    left
    simp [World.Quiet, Action.isStartExec, Action.isTaskDone]
  | bindValue p v =>
    simp only [World.step, AsyncQuery.bindValue, Option.some.injEq] at h
    subst h
    left
    simp [World.Quiet, Action.isStartExec, Action.isTaskDone]
  | startExec =>
    simp only [World.step, AsyncQuery.startExec, Option.some.injEq] at h
    subst h
    rcases dispatch_kinds w { w.sched with curQuery := { w.sched.curQuery with isPrepared := true } }
        Action.startExec rfl rfl rfl rfl rfl with hk | hk
    · exact Or.inr (Or.inl hk)
    · exact Or.inr (Or.inr (Or.inl hk))
  | startExecQuery query =>
    simp only [World.step, AsyncQuery.startExecQuery, Option.some.injEq] at h
    subst h
    rcases dispatch_kinds w
        { w.sched with curQuery := { w.sched.curQuery with isPrepared := false, query := query } }
        (Action.startExecQuery query) rfl rfl rfl rfl rfl with hk | hk
    · exact Or.inr (Or.inl hk)
    · exact Or.inr (Or.inr (Or.inl hk))
  | waitDone ms =>
    left
    by_cases hc : w.sched.taskCnt > 0
    · simp [World.step, AsyncQuery.waitDone, hc] at h
      subst h
      simp [World.Quiet, Action.isStartExec, Action.isTaskDone]
    · simp [World.step, AsyncQuery.waitDone, hc] at h
      subst h
      simp [World.Quiet, Action.isStartExec, Action.isTaskDone, startedTasks, notifications,
        busyEvents, Event.task?, Event.done?, Event.busy?]
  | waitTimeout =>
    left
    by_cases hb : w.blocked = 0
    · simp [World.step, hb] at h
    · simp [World.step, hb] at h
      subst h
      simp [World.Quiet, Action.isStartExec, Action.isTaskDone]
  | taskDone i r =>
    cases ht : w.pool[i]? with
    | none => simp [World.step, ht] at h
    | some t =>
      rcases completion_kinds w i r t ht w2 h with hk | hk
      · exact Or.inr (Or.inr (Or.inr (Or.inl hk)))
      · exact Or.inr (Or.inr (Or.inr (Or.inr hk)))

/-- Only `setMode` changes the mode. -/
theorem step_mode (w w2 : World) (a : Action) (h : w.step a = some w2)
    (ha : a.isSetMode = false) : w2.sched.mode = w.sched.mode := by
  cases a with
  | setMode m => simp [Action.isSetMode] at ha
  | setDelayMs ms =>
    simp only [World.step, AsyncQuery.setDelayMs, Option.some.injEq] at h
    subst h; rfl
  | prepare query =>
    simp only [World.step, AsyncQuery.prepare, Option.some.injEq] at h
    subst h; rfl
  | bindValue p v =>
    simp only [World.step, AsyncQuery.bindValue, Option.some.injEq] at h
    subst h; rfl
  | startExec =>
    simp only [World.step, AsyncQuery.startExec, Option.some.injEq] at h
    subst h
    simp only [World.afterDispatch, AsyncQuery.startExecIntern, AsyncQuery.spawnCurrent,
      AsyncQuery.incTaskCount]
    split_ifs <;> rfl
  | startExecQuery query =>
    simp only [World.step, AsyncQuery.startExecQuery, Option.some.injEq] at h
    subst h
    simp only [World.afterDispatch, AsyncQuery.startExecIntern, AsyncQuery.spawnCurrent,
      AsyncQuery.incTaskCount]
    split_ifs <;> rfl
  | waitDone ms =>
    by_cases hc : w.sched.taskCnt > 0
    · simp [World.step, AsyncQuery.waitDone, hc] at h
      subst h; rfl
    · simp [World.step, AsyncQuery.waitDone, hc] at h
      subst h; rfl
  | waitTimeout =>
    by_cases hb : w.blocked = 0
    · simp [World.step, hb] at h
    · simp [World.step, hb] at h
      subst h; rfl
  | taskDone i r =>
    cases ht : w.pool[i]? with
    | none => simp [World.step, ht] at h
    | some t =>
      simp only [World.step, ht, Option.some.injEq] at h
      subst h
      simp only [AsyncQuery.taskCallback, AsyncQuery.taskCallbackLocked,
        AsyncQuery.decTaskCount]
      split_ifs <;> rfl


/-! ## Invariants of runs -/

/-- A property kept by every allowed step holds after every allowed run. -/
theorem run_invariant (I : World → Prop) (ok : World → Action → Bool)
    (hstep : ∀ w a w2, I w → ok w a = true → w.step a = some w2 → I w2) :
    ∀ (acts : List Action) (w w2 : World), I w → World.allows ok w acts = true →
      w.run acts = some w2 → I w2 := by
  intro acts
  induction acts with
  | nil =>
    intro w w2 hI _ hrun
    simp only [World.run, Option.some.injEq] at hrun
    exact hrun ▸ hI
  | cons a as ih =>
    intro w w2 hI hall hrun
    cases hs : w.step a with
    | none => simp [World.run, hs] at hrun
    | some w1 =>
      simp only [World.run, hs] at hrun
      simp only [World.allows, hs, Bool.and_eq_true] at hall
      exact ih w1 w2 (hstep w a w1 hI hall.1 hs) hall.2 hrun

/-- A guard that looks at the action only is a condition on the list. -/
theorem allows_of_forall (p : Action → Bool) (acts : List Action)
    (h : ∀ a ∈ acts, p a = true) (w : World) :
    World.allows (fun _ a => p a) w acts = true := by
  induction acts generalizing w with
  | nil => rfl
  | cons a as ih =>
    have ha : p a = true := h a (List.mem_cons_self a as)
    have hr : ∀ b ∈ as, p b = true := fun b hb => h b (List.mem_cons_of_mem a hb)
    cases hs : w.step a with
    | none => simp [World.allows, hs, ha]
    | some w1 => simp [World.allows, hs, ha, ih hr w1]

theorem length_eraseIdx_of_getElem? {α : Type} (l : List α) (i : Nat) (t : α)
    (h : l[i]? = some t) : ((l.eraseIdx i).length : Int) = (l.length : Int) - 1 := by
  have hi : i < l.length := by
    rcases List.getElem?_eq_some.1 h with ⟨hi, _⟩
    exact hi
  rw [List.length_eraseIdx, if_pos hi]
  omega

/-- The counter follows the pool. -/
theorem count_step (w w2 : World) (a : Action)
    (hc : w.sched.taskCnt = (w.pool.length : Int))
    (h : w.step a = some w2) : w2.sched.taskCnt = (w2.pool.length : Int) := by
  rcases step_kinds w w2 a h with hk | hk | hk | hk | hk
  · obtain ⟨_, _, h1, _, h2, _⟩ := hk
    rw [h1, h2, hc]
  · obtain ⟨_, _, h1, _, h2, _⟩ := hk
    rw [h1, h2, hc]; simp
  · obtain ⟨_, _, _, h1, _, h2, _⟩ := hk
    rw [h1, h2, hc]
  · obtain ⟨i, r, t, x, rest, _, ht, _, _, h1, _, h2, _⟩ := hk
    rw [h1, h2, hc, List.length_append, Nat.cast_add, length_eraseIdx_of_getElem? _ _ _ ht]
    simp
  · obtain ⟨i, r, t, _, ht, _, h1, _, h2, _⟩ := hk
    rw [h1, h2, hc, length_eraseIdx_of_getElem? _ _ _ ht]

theorem accounted_step (w w2 : World) (a : Action) (hI : w.Accounted)
    (h : w.step a = some w2) : w2.Accounted := by
  obtain ⟨hc, hn⟩ := hI
  refine ⟨count_step w w2 a hc h, ?_⟩
  rcases step_kinds w w2 a h with hk | hk | hk | hk | hk
  · obtain ⟨_, _, _, _, _, _, h3, _, _, h4⟩ := hk
    rw [h3, h4, hn]
  · obtain ⟨_, _, _, _, _, _, h3, _, _, h4⟩ := hk
    rw [h3, h4, hn]
  · obtain ⟨_, _, _, _, _, _, _, h3, _, _, h4⟩ := hk
    rw [h3, h4, hn]
  · obtain ⟨i, r, t, x, rest, _, _, _, _, _, _, _, _, h3, _, _, h4⟩ := hk
    rw [h3, h4, hn]; simp
  · obtain ⟨i, r, t, _, _, _, _, _, _, _, h3, _, _, h4⟩ := hk
    rw [h3, h4, hn]; simp


/-! ## Fifo mode -/

theorem pool_single {α : Type} (l : List α) (i : Nat) (t : α) (hl : l.length ≤ 1)
    (h : l[i]? = some t) : l = [t] ∧ l.eraseIdx i = [] := by
  match l, hl, h with
  | [x], _, h =>
    cases i with
    | zero => simp at h; simp [h]
    | succ n => simp at h
  | [], _, h => simp at h

theorem run_append (as bs : List Action) (w : World) :
    w.run (as ++ bs) = (w.run as).bind (fun w1 => w1.run bs) := by
  induction as generalizing w with
  | nil => rfl
  | cons a as ih =>
    cases hs : w.step a with
    | none => simp [World.run, hs]
    | some w1 => simp [World.run, hs, ih]

theorem run_single (a : Action) (w : World) : w.run [a] = w.step a := by
  cases hs : w.step a <;> simp [World.run, hs]

/-- A request call can always happen, and while a task is in flight in
SkipPrevious mode it is quiet or replaces the queue by the new request. -/
theorem skip_request_step (w : World) (a : Action) (ha : a.isRequestCall = true)
    (hm : w.sched.mode = Mode.Mode_SkipPrevious) (hc : w.sched.taskCnt ≠ 0) :
    ∃ w2, w.step a = some w2 ∧ w2.sched.mode = Mode.Mode_SkipPrevious ∧
      w2.sched.taskCnt = w.sched.taskCnt ∧ w2.pool = w.pool ∧
      startedTasks w2.trace = startedTasks w.trace ∧
      notifications w2.trace = notifications w.trace ∧ w2.completed = w.completed ∧
      ((a.isStartExec = false ∧ w2.submitted = w.submitted ∧ w2.sched.ququ = w.sched.ququ) ∨
       (a.isStartExec = true ∧ ∃ R, w2.submitted = w.submitted ++ [R] ∧
          w2.sched.ququ = [R])) := by
  have hex : ∃ w2, w.step a = some w2 := by
    cases a <;> simp [Action.isRequestCall] at ha <;> exact ⟨_, rfl⟩
  obtain ⟨w2, hs⟩ := hex
  have hset : a.isSetMode = false := by
    cases a <;> simp [Action.isRequestCall] at ha <;> rfl
  have hdone : a.isTaskDone = false := by
    cases a <;> simp [Action.isRequestCall] at ha <;> rfl
  have hm2 := step_mode w w2 a hs hset
  refine ⟨w2, hs, by rw [hm2, hm], ?_⟩
  rcases step_kinds w w2 a hs with hk | hk | hk | hk | hk
  · obtain ⟨h0, _, h1, h2, h3, h4, h5, _, h6, h7⟩ := hk
    exact ⟨h1, h3, h4, h5, h7, Or.inl ⟨h0, h6, h2⟩⟩
  · obtain ⟨_, hcase, _⟩ := hk
    rcases hcase with hcase | hcase
    · rw [hm] at hcase; cases hcase
    · exact absurd hcase hc
  · obtain ⟨h0, _, _, h1, h2, h3, h4, h5, _, h6, h7⟩ := hk
    refine ⟨h1, h3, h4, h5, h7, Or.inr ⟨h0, w2.sched.curQuery, h6, ?_⟩⟩
    rw [h2, hm]; simp
  · obtain ⟨i, r, _, _, _, he, _⟩ := hk
    rw [he] at hdone; simp [Action.isTaskDone] at hdone
  · obtain ⟨i, r, _, he, _⟩ := hk
    rw [he] at hdone; simp [Action.isTaskDone] at hdone

/-- Request calls made while a task is in flight in SkipPrevious mode: no task
is started, nothing is notified, and if a request was dispatched the queue
holds the last dispatched request and nothing else. -/
theorem skip_submissions (subs : List Action) (w0 : World)
    (hm : w0.sched.mode = Mode.Mode_SkipPrevious) (hc : w0.sched.taskCnt ≠ 0)
    (hsubs : ∀ a ∈ subs, a.isRequestCall = true) :
    ∃ w1 mid, w0.run subs = some w1 ∧ w1.sched.mode = Mode.Mode_SkipPrevious ∧
      w1.sched.taskCnt = w0.sched.taskCnt ∧ w1.pool = w0.pool ∧
      startedTasks w1.trace = startedTasks w0.trace ∧
      notifications w1.trace = notifications w0.trace ∧ w1.completed = w0.completed ∧
      w1.submitted = w0.submitted ++ mid ∧
      (((∀ a ∈ subs, a.isStartExec = false) ∧ mid = [] ∧ w1.sched.ququ = w0.sched.ququ) ∨
       ((∃ a ∈ subs, a.isStartExec = true) ∧ ∃ rs Rn, mid = rs ++ [Rn] ∧
          w1.sched.ququ = [Rn])) := by
  induction subs using List.reverseRecOn with
  | nil =>
    exact ⟨w0, [], rfl, hm, rfl, rfl, rfl, rfl, rfl, by simp, Or.inl ⟨by simp, rfl, rfl⟩⟩
  | append_singleton as a ih =>
    have has : ∀ b ∈ as, b.isRequestCall = true :=
      fun b hb => hsubs b (List.mem_append_left _ hb)
    have ha : a.isRequestCall = true := hsubs a (by simp)
    obtain ⟨w1, mid, hrun, hm1, hc1, hp1, hs1, hn1, hd1, hsub1, hlast⟩ := ih has
    obtain ⟨w2, hstep, hm2, hc2, hp2, hs2, hn2, hd2, hkind⟩ :=
      skip_request_step w1 a ha hm1 (by rw [hc1]; exact hc)
    have hrun2 : w0.run (as ++ [a]) = some w2 := by
      rw [run_append, hrun]
      simp [run_single, hstep]
    rcases hkind with ⟨hq, hsub2, hqu2⟩ | ⟨hq, R, hsub2, hqu2⟩
    · refine ⟨w2, mid, hrun2, hm2, by rw [hc2, hc1], by rw [hp2, hp1], by rw [hs2, hs1],
        by rw [hn2, hn1], by rw [hd2, hd1], by rw [hsub2, hsub1], ?_⟩
      rcases hlast with ⟨hno, hmid, hqu1⟩ | ⟨⟨b, hb, hbq⟩, rs, Rn, hmid, hqu1⟩
      · left
        refine ⟨?_, hmid, by rw [hqu2, hqu1]⟩
        intro b hb
        rcases List.mem_append.1 hb with hb | hb
        · exact hno b hb
        · simp at hb; rw [hb]; exact hq
      · right
        exact ⟨⟨b, List.mem_append_left _ hb, hbq⟩, rs, Rn, hmid, by rw [hqu2, hqu1]⟩
    · refine ⟨w2, mid ++ [R], hrun2, hm2, by rw [hc2, hc1], by rw [hp2, hp1],
        by rw [hs2, hs1], by rw [hn2, hn1], by rw [hd2, hd1],
        by rw [hsub2, hsub1, List.append_assoc], ?_⟩
      right
      exact ⟨⟨a, by simp, hq⟩, mid, R, rfl, hqu2⟩


theorem skipInv_step (base w w2 : World) (a : Action) (hI : World.SkipInv base w)
    (ha : a.isSetMode = false) (h : w.step a = some w2) : World.SkipInv base w2 := by
  obtain ⟨hm, hacc, hp, hql, hq, later, l, done, hsub, hst, hdn, hnt, hpl, hsl⟩ := hI
  have hm2 : w2.sched.mode = Mode.Mode_SkipPrevious := by rw [step_mode w w2 a h ha, hm]
  have hacc2 := count_step w w2 a hacc h
  refine ⟨hm2, hacc2, ?_⟩
  simp only [startedQueries] at hst hpl ⊢
  rcases step_kinds w w2 a h with hk | hk | hk | hk | hk
  · obtain ⟨_, _, _, h2, h3, h4, h4n, _, h5, h6⟩ := hk
    rw [h2, h3, h4, h4n, h5, h6]
    exact ⟨hp, hql, hq, later, l, done, hsub, hst, hdn, hnt, hpl, hsl⟩
  · obtain ⟨_, hcase, _, h2, h3, h4, h4n, _, h5, h6⟩ := hk
    have h0 : w.sched.taskCnt = 0 := by
      rcases hcase with hcase | hcase
      · rw [hm] at hcase; cases hcase
      · exact hcase
    have hpool : w.pool = [] := by
      have := hacc
      rw [h0] at this
      exact List.length_eq_zero.1 (by exact_mod_cast this.symm)
    have hqu := hq hpool
    rw [hqu, List.append_nil] at hsl
    rw [hpool] at hpl
    rw [h2, h3, h4, h4n, h5, h6, hpool, hqu]
    refine ⟨by simp, by simp, fun _ => rfl, later ++ [w2.sched.curQuery],
      l ++ [w2.sched.curQuery], done, ?_, ?_, hdn, hnt, ?_, ?_⟩
    · rw [hsub, List.append_assoc]
    · rw [List.map_append, hst, List.append_assoc]; rfl
    · simp at hpl ⊢
      rw [hpl, List.append_assoc]
    · rw [List.append_nil, ← List.append_assoc]
      exact hsl.append (List.Sublist.refl _)
  · obtain ⟨_, _, hcnt, _, h2, h3, h4, h4n, _, h5, h6⟩ := hk
    have hpool : w.pool ≠ [] := by
      intro e
      apply hcnt
      rw [hacc, e]; rfl
    have hne : w.sched.mode ≠ Mode.Mode_Fifo := by rw [hm]; decide
    rw [h2, h3, h4, h4n, h5, h6, if_neg hne]
    refine ⟨hp, by simp, fun e => absurd e hpool, later ++ [w2.sched.curQuery], l, done,
      ?_, hst, hdn, hnt, hpl, ?_⟩
    · rw [hsub, List.append_assoc]
    · rw [List.nil_append, ← List.append_assoc]
      exact ((List.sublist_append_left l w.sched.ququ).trans hsl).append (List.Sublist.refl _)
  · obtain ⟨i, r, t, x, rest, _, ht, _, hqx, _, h2, h3, h4, h4n, _, h5, h6⟩ := hk
    obtain ⟨hpt, her⟩ := pool_single w.pool i t hp ht
    rw [hqx] at hsl hql
    rw [hpt] at hpl
    have hrest : rest.length ≤ 1 := by
      simp only [List.length_cons] at hql
      omega
    rw [h2, h3, h4, h4n, h5, h6, her]
    refine ⟨by simp, hrest, by simp, later, l ++ [x],
      done ++ [(t.query, r)], hsub, ?_, ?_, ?_, ?_, ?_⟩
    · rw [List.map_append, hst, List.append_assoc]; rfl
    · rw [hdn, List.append_assoc]
    · rw [hnt]; simp
    · simp at hpl ⊢
      rw [← List.append_assoc, ← hpl]; simp
    · simpa using hsl
  · obtain ⟨i, r, t, _, ht, hcase, _, h2, h3, h4, h4n, _, h5, h6⟩ := hk
    obtain ⟨hpt, her⟩ := pool_single w.pool i t hp ht
    have hqu : w.sched.ququ = [] := by
      rcases hcase with hcase | hcase
      · rw [hm] at hcase; cases hcase
      · exact hcase
    rw [hpt] at hpl
    rw [h2, h3, h4, h4n, h5, h6, her]
    refine ⟨by simp, hql, fun _ => hqu, later, l, done ++ [(t.query, r)], hsub, hst, ?_,
      ?_, ?_, hsl⟩
    · rw [hdn, List.append_assoc]
    · rw [hnt]; simp
    · simp at hpl ⊢
      exact hpl


/-- C2 (SkipPrevious supersession). In SkipPrevious mode with exactly one task
`t0` in flight, the callers make request calls `subs` (`prepare`, `bindValue`,
`startExec`), at least one of them a `startExec`; `Rn` is the last request
dispatched and `rs` the ones before it. Then: the calls start no task and emit
no notification, and leave the queue holding `Rn` alone; after every initial
part of the calls the queue holds at most one request; when `t0` completes,
exactly one task is started, for `Rn`, one notification is emitted, for `t0`,
and the queue is empty again; and in every continuation without `setMode` the
queue never holds more than one request, every task started is for a request
submitted in the continuation, and every notification is for `Rn` or for such
a task: the requests `rs` get neither a task nor a notification. -/
theorem C2_skip_previous (w0 : World) (t0 : SqlTaskPrivate) (subs : List Action)
    (r : AsyncQueryResult)
    (hm : w0.sched.mode = Mode.Mode_SkipPrevious) (hc : w0.sched.taskCnt = 1)
    (hp : w0.pool = [t0]) (hq : w0.sched.ququ.length ≤ 1)
    (hsubs : ∀ a ∈ subs, a.isRequestCall = true)
    (hany : ∃ a ∈ subs, a.isStartExec = true) :
    ∃ w1 w2 rs Rn,
      w0.run subs = some w1 ∧ w1.submitted = w0.submitted ++ rs ++ [Rn] ∧
      startedTasks w1.trace = startedTasks w0.trace ∧
      notifications w1.trace = notifications w0.trace ∧
      w1.pool = [t0] ∧ w1.sched.ququ = [Rn] ∧
      (∀ pre, pre <+: subs → ∃ w, w0.run pre = some w ∧ w.sched.ququ.length ≤ 1) ∧
      w1.step (Action.taskDone 0 r) = some w2 ∧
      startedQueries w2.trace = startedQueries w1.trace ++ [Rn] ∧
      notifications w2.trace = notifications w1.trace ++ [r] ∧
      w2.completed = w1.completed ++ [(t0.query, r)] ∧
      w2.pool.map SqlTaskPrivate.query = [Rn] ∧ w2.sched.ququ = [] ∧
      w2.sched.taskCnt = 1 ∧
      (∀ rest w3, (∀ a ∈ rest, a.isSetMode = false) → w2.run rest = some w3 →
        w3.sched.ququ.length ≤ 1 ∧
        ∃ (later l : List QueuedQuery) (done : List (QueuedQuery × AsyncQueryResult)),
          w3.submitted = w2.submitted ++ later ∧
          startedQueries w3.trace = startedQueries w2.trace ++ l ∧
          l.Sublist later ∧
          notifications w3.trace = notifications w2.trace ++ done.map Prod.snd ∧
          done.map Prod.fst <+: Rn :: l) := by
  have hc0 : w0.sched.taskCnt ≠ 0 := by rw [hc]; decide
  obtain ⟨w1, mid, hrun, hm1, hc1, hp1, hs1, hn1, hd1, hsub1, hlast⟩ :=
    skip_submissions subs w0 hm hc0 hsubs
  rcases hlast with ⟨hno, _, _⟩ | ⟨_, rs, Rn, hmid, hqu1⟩
  · obtain ⟨a, ha, haq⟩ := hany
    rw [hno a ha] at haq
    cases haq
  have hget : w1.pool[0]? = some t0 := by rw [hp1, hp]; rfl
  have hex : ∃ w2, w1.step (Action.taskDone 0 r) = some w2 := by
    simp only [World.step, hget]
    exact ⟨_, rfl⟩
  obtain ⟨w2, hstep⟩ := hex
  have hm2 : w2.sched.mode = Mode.Mode_SkipPrevious := by
    rw [step_mode w1 w2 _ hstep rfl, hm1]
  have hkind : World.Handoff w1 w2 (Action.taskDone 0 r) := by
    rcases completion_kinds w1 0 r t0 hget w2 hstep with hk | hk
    · exact hk
    · obtain ⟨_, _, _, _, _, hcase, _⟩ := hk
      rcases hcase with hcase | hcase
      · rw [hm1] at hcase; cases hcase
      · rw [hqu1] at hcase; cases hcase
  obtain ⟨i, r2, t, x, rest, he, ht, _, hqx, k1, k2, k3, k4, k5, _, k6, k7⟩ := hkind
  have hi : i = 0 ∧ r2 = r := by
    cases he; exact ⟨rfl, rfl⟩
  obtain ⟨hi0, hr2⟩ := hi
  subst hi0 hr2
  have htt : t = t0 := by
    rw [hget] at ht
    exact (Option.some.inj ht).symm
  subst htt
  have hx : x = Rn ∧ rest = [] := by
    rw [hqu1] at hqx
    exact ⟨(List.cons.inj hqx).1.symm, (List.cons.inj hqx).2.symm⟩
  obtain ⟨hxR, hrest⟩ := hx
  subst hxR hrest
  have hpool2 : w2.pool = [{ query := x, delayMs := w1.sched.delayMs }] := by
    rw [k3, hp1, hp]; rfl
  have hbase : World.SkipInv w2 w2 := by
    refine ⟨hm2, ?_, ?_, ?_, ?_, [], [], [], ?_, ?_, ?_, ?_, ?_, ?_⟩
    · rw [k1, hc1, hc, hpool2]; rfl
    · rw [hpool2]; simp
    · rw [k2]; simp
    · intro _; exact k2
    all_goals simp [k2]
  refine ⟨w1, w2, rs, x, hrun, by rw [hsub1, hmid, List.append_assoc], hs1, hn1,
    by rw [hp1, hp], hqu1, ?_, hstep, ?_, k5, k7, by rw [hpool2]; rfl, k2,
    by rw [k1, hc1, hc], ?_⟩
  · intro pre hpre
    have hpsubs : ∀ a ∈ pre, a.isRequestCall = true :=
      fun a ha => hsubs a (hpre.subset ha)
    obtain ⟨w, _, hrunp, _, _, _, _, _, _, _, hl⟩ := skip_submissions pre w0 hm hc0 hpsubs
    refine ⟨w, hrunp, ?_⟩
    rcases hl with ⟨_, _, hqw⟩ | ⟨_, _, R, _, hqw⟩
    · rw [hqw]; exact hq
    · rw [hqw]; simp
  · simp only [startedQueries]
    rw [k4]; simp
  · intro rest w3 hrest hrun3
    have hall : World.allows (fun _ a => !a.isSetMode) w2 rest = true :=
      allows_of_forall (fun a => !a.isSetMode) rest (fun a ha => by simp [hrest a ha]) _
    have hI : World.SkipInv w2 w3 :=
      run_invariant (World.SkipInv w2) (fun _ a => !a.isSetMode)
        (fun w a w4 hI hok hs => skipInv_step w2 w w4 a hI (by simpa using hok) hs)
        rest w2 w3 hbase hall hrun3
    obtain ⟨_, _, _, hql, _, later, l, done, g1, g2, _, g4, g5, g6⟩ := hI
    refine ⟨hql, later, l, done, g1, g2, ?_, g4, ?_⟩
    · rw [k2, List.nil_append] at g6
      exact (List.sublist_append_left l w3.sched.ququ).trans g6
    · rw [hpool2] at g5
      exact ⟨_, g5⟩

/-- C2 at the scenario of the claim: A is submitted and starts at once, B and C
are submitted while A runs; when A completes the one task started is for C,
and over the whole run tasks are started for A and C only. -/
theorem C2_skip_previous_witness :
    skipDemoWorld.sched.mode = Mode.Mode_SkipPrevious ∧
    skipDemoWorld.sched.taskCnt = 1 ∧ skipDemoWorld.pool = [skipDemoTask] ∧
    (∀ a ∈ skipDemoSubs, a.isRequestCall = true) ∧
    (∃ a ∈ skipDemoSubs, a.isStartExec = true) ∧
    (∃ w1 w2 Rn, skipDemoWorld.run skipDemoSubs = some w1 ∧
      w1.step (Action.taskDone 0 AsyncQueryResult.new) = some w2 ∧
      startedQueries w2.trace = startedQueries w1.trace ++ [Rn] ∧
      startedTasks w1.trace = startedTasks skipDemoWorld.trace) ∧
    ((skipDemoWorld.run (skipDemoSubs ++ [Action.taskDone 0 AsyncQueryResult.new])).map
      (fun w => ((startedQueries w.trace).map QueuedQuery.query,
                 w.completedQueries.map QueuedQuery.query, w.sched.ququ)))
      = some (["A", "C"], ["A"], []) :=
  ⟨by decide, by decide, by decide, by decide, by decide,
   (C2_skip_previous skipDemoWorld skipDemoTask skipDemoSubs AsyncQueryResult.new
      (by decide) (by decide) (by decide) (by decide) (by decide) (by decide)).elim
     (fun w1 h1 => h1.elim (fun w2 h2 => h2.elim (fun _ h3 => h3.elim (fun Rn h =>
       ⟨w1, w2, Rn, h.1, h.2.2.2.2.2.2.2.1, h.2.2.2.2.2.2.2.2.1, h.2.2.1⟩)))),
   by decide⟩


/-! ## Parallel mode -/

theorem parallelInv_step (ququ0 : List QueuedQuery) (w w2 : World) (a : Action)
    (hI : World.ParallelInv ququ0 w) (ha : a.isSetMode = false) (h : w.step a = some w2) :
    World.ParallelInv ququ0 w2 := by
  obtain ⟨hm, hacc, hq, hs, hl⟩ := hI
  have hm2 : w2.sched.mode = Mode.Mode_Parallel := by rw [step_mode w w2 a h ha, hm]
  refine ⟨hm2, accounted_step w w2 a hacc h, ?_⟩
  simp only [startedQueries] at hs ⊢
  rcases step_kinds w w2 a h with hk | hk | hk | hk | hk
  · obtain ⟨_, _, _, h2, h3, h4, _, _, h5, h6⟩ := hk
    rw [h2, h3, h4, h5, h6]
    exact ⟨hq, hs, hl⟩
  · obtain ⟨_, _, _, h2, h3, h4, _, _, h5, h6⟩ := hk
    rw [h2, h3, h4, h5, h6]
    refine ⟨hq, by rw [List.map_append, hs]; rfl, ?_⟩
    simp only [List.length_append, List.length_singleton]
    omega
  · obtain ⟨_, hne, _⟩ := hk
    exact absurd hm hne
  · obtain ⟨_, _, _, _, _, _, _, hne, _⟩ := hk
    exact absurd hm hne
  · obtain ⟨i, r, t, _, ht, _, _, h2, h3, h4, _, _, h5, h6⟩ := hk
    have hi : i < w.pool.length := (List.getElem?_eq_some.1 ht).1
    rw [h2, h3, h4, h5, h6]
    refine ⟨hq, hs, ?_⟩
    rw [List.length_eraseIdx, if_pos hi]
    simp only [List.length_append, List.length_singleton]
    omega

/-- Every dispatching call of a run adds one submitted request. -/
theorem submitted_length_run (acts : List Action) (w w2 : World)
    (h : w.run acts = some w2) :
    w2.submitted.length = w.submitted.length + acts.countP Action.isStartExec := by
  induction acts generalizing w with
  | nil =>
    simp only [World.run, Option.some.injEq] at h
    subst h; simp
  | cons a as ih =>
    cases hs : w.step a with
    | none => simp [World.run, hs] at h
    | some w1 =>
      simp only [World.run, hs] at h
      have h1 : w1.submitted.length =
          w.submitted.length + (if a.isStartExec = true then 1 else 0) := by
        rcases step_kinds w w1 a hs with hk | hk | hk | hk | hk
        · obtain ⟨h0, _, _, _, _, _, _, _, h5, _⟩ := hk
          rw [h5, h0]; simp
        · obtain ⟨h0, _, _, _, _, _, _, _, h5, _⟩ := hk
          rw [h5, h0]; simp
        · obtain ⟨h0, _, _, _, _, _, _, _, _, h5, _⟩ := hk
          rw [h5, h0]; simp
        · obtain ⟨i, r, t, x, rest, he, _, _, _, _, _, _, _, _, _, h5, _⟩ := hk
          rw [h5, he]; simp [Action.isStartExec]
        · obtain ⟨i, r, t, he, _, _, _, _, _, _, _, _, h5, _⟩ := hk
          rw [h5, he]; simp [Action.isStartExec]
      rw [ih w1 h, h1, List.countP_cons]
      omega

/-- C3 (Parallel mode drops nothing). In Parallel mode each of the two
`startExec` functions raises the in-flight count by exactly one, leaves the
queue as it is and starts exactly one task, for the current request; every
`taskCallback`, in any mode, emits exactly one `execDone`, carrying the
delivered result; and along every run without `setMode` of a scheduler that
is idle and in Parallel mode, the started requests are the submitted ones in
order, each submitted request is running or completed, the queue is never
touched, the `execDone` signals are the results of the completed tasks, and
once no task is running their number is the number of `startExec` calls. -/
theorem C3_parallel_drops_nothing :
    (∀ s : AsyncQuery, s.mode = Mode.Mode_Parallel →
      (s.startExec.1.taskCnt = s.taskCnt + 1 ∧ s.startExec.1.ququ = s.ququ ∧
        startedTasks s.startExec.2 =
          [{ query := s.startExec.1.curQuery, delayMs := s.delayMs }]) ∧
      (∀ text, (s.startExecQuery text).1.taskCnt = s.taskCnt + 1 ∧
        (s.startExecQuery text).1.ququ = s.ququ ∧
        startedTasks (s.startExecQuery text).2 =
          [{ query := (s.startExecQuery text).1.curQuery, delayMs := s.delayMs }] ∧
        (s.startExecQuery text).1.curQuery.query = text)) ∧
    (∀ (s : AsyncQuery) (r : AsyncQueryResult), notifications (s.taskCallback r).2 = [r]) ∧
    (∀ (q : AsyncQuery) (acts : List Action) (w : World),
      q.mode = Mode.Mode_Parallel → q.taskCnt = 0 →
      (∀ a ∈ acts, a.isSetMode = false) → (World.idle q).run acts = some w →
      startedQueries w.trace = w.submitted ∧
      w.submitted.length = acts.countP Action.isStartExec ∧
      w.completed.length + w.pool.length = w.submitted.length ∧
      w.sched.ququ = q.ququ ∧
      notifications w.trace = w.completed.map Prod.snd ∧
      (w.pool = [] →
        (notifications w.trace).length = acts.countP Action.isStartExec)) := by
  refine ⟨?_, ?_, ?_⟩
  · intro s hm
    refine ⟨?_, ?_⟩
    · unfold AsyncQuery.startExec
      rw [startExecIntern_spawn
        { s with curQuery := { s.curQuery with isPrepared := true } } (Or.inl hm)]
      by_cases h0 : s.taskCnt = 0 <;> simp [startedTasks, Event.task?, h0]
    · intro text
      unfold AsyncQuery.startExecQuery
      rw [startExecIntern_spawn
        { s with curQuery := { s.curQuery with isPrepared := false, query := text } }
        (Or.inl hm)]
      by_cases h0 : s.taskCnt = 0 <;> simp [startedTasks, Event.task?, h0]
  · exact notifications_taskCallback
  · intro q acts w hm hc hacts hrun
    have h0 : World.ParallelInv q.ququ (World.idle q) := by
      refine ⟨hm, ⟨?_, rfl⟩, rfl, rfl, rfl⟩
      simp [World.idle, hc]
    have hall : World.allows (fun _ a => !a.isSetMode) (World.idle q) acts = true :=
      allows_of_forall (fun a => !a.isSetMode) acts (fun a ha => by simp [hacts a ha]) _
    have hI : World.ParallelInv q.ququ w :=
      run_invariant (World.ParallelInv q.ququ) (fun _ a => !a.isSetMode)
        (fun w a w2 hI hok hs => parallelInv_step q.ququ w w2 a hI (by simpa using hok) hs)
        acts (World.idle q) w h0 hall hrun
    obtain ⟨_, hacc, hq, hs, hl⟩ := hI
    have hn := submitted_length_run acts (World.idle q) w hrun
    have hn2 : w.submitted.length = acts.countP Action.isStartExec := by
      rw [hn]; simp [World.idle]
    refine ⟨hs, hn2, hl, hq, hacc.2, ?_⟩
    intro hpool
    rw [hacc.2, List.length_map, ← hn2, ← hl, hpool]
    simp

/-- C3 at a concrete run: three requests in Parallel mode whose tasks complete
out of order give three notifications. -/
theorem C3_parallel_drops_nothing_witness :
    (World.idle AsyncQuery.new).run parallelDemo = some parallelDemoWorld ∧
    parallelDemoWorld.pool = [] ∧
    (notifications parallelDemoWorld.trace).length = 3 ∧
    (notifications parallelDemoWorld.trace).length =
      parallelDemo.countP Action.isStartExec :=
  ⟨by decide, by decide, by decide,
   (C3_parallel_drops_nothing.2.2 AsyncQuery.new parallelDemo parallelDemoWorld
      (by decide) (by decide) (by decide) (by decide)).2.2.2.2.2 (by decide)⟩


/-! ## Mode changes -/

theorem step_setMode (w w2 : World) (m : Mode) (h : w.step (Action.setMode m) = some w2) :
    w2.sched.mode = m := by
  simp only [World.step, AsyncQuery.setMode, Option.some.injEq] at h
  subst h; rfl

/-- C4 as stated fails: two tasks started in Parallel mode are still in flight
after `setMode(Mode_Fifo)`. -/
theorem C4_single_task_counterexample :
    ∃ w, World.new.run switchToFifoDemo = some w ∧
      w.sched.mode = Mode.Mode_Fifo ∧ w.sched.taskCnt = 2 ∧ ¬ (w.sched.taskCnt ≤ 1) :=
  ⟨_, rfl, by decide, by decide, by decide⟩

/-- C4 (single task in flight), amended. In every state reached from a new
scheduler by a sequence of actions in which `setMode(Mode_Fifo)` and
`setMode(Mode_SkipPrevious)` are called only while at most one task is in
flight, if the mode is Fifo or SkipPrevious then the in-flight count is at
most 1. -/
theorem C4_single_task_amended (acts : List Action) (w : World)
    (hguard : World.allows setModeWhenSingle World.new acts = true)
    (hrun : World.new.run acts = some w)
    (hmode : w.sched.mode = Mode.Mode_Fifo ∨ w.sched.mode = Mode.Mode_SkipPrevious) :
    w.sched.taskCnt ≤ 1 := by
  have hI : w.sched.mode ≠ Mode.Mode_Parallel → w.sched.taskCnt ≤ 1 := by
    refine run_invariant (fun w => w.sched.mode ≠ Mode.Mode_Parallel → w.sched.taskCnt ≤ 1)
      setModeWhenSingle ?_ acts World.new w ?_ hguard hrun
    · intro w a w2 hI hok hs hne
      rcases step_kinds w w2 a hs with hk | hk | hk | hk | hk
      · obtain ⟨_, _, h1, _⟩ := hk
        rw [h1]
        cases a with
        | setMode m =>
          have hm := step_setMode w w2 m hs
          simp only [setModeWhenSingle, decide_eq_true_eq] at hok
          rcases hok with hok | hok
          · rw [hm] at hne; exact absurd hok hne
          · exact hok
        | _ =>
          exact hI (by rw [← step_mode w w2 _ hs rfl]; exact hne)
      · obtain ⟨ha, hcase, h1, _⟩ := hk
        have hset : a.isSetMode = false := by
          cases a <;> simp [Action.isStartExec] at ha <;> rfl
        rw [step_mode w w2 a hs hset] at hne
        rcases hcase with hcase | hcase
        · exact absurd hcase hne
        · rw [h1, hcase]; decide
      · obtain ⟨ha, hne1, _, h1, _⟩ := hk
        rw [h1]; exact hI hne1
      · obtain ⟨_, _, _, _, _, _, _, hne1, _, h1, _⟩ := hk
        rw [h1]; exact hI hne1
      · obtain ⟨i, r, t, he, _, _, h1, _⟩ := hk
        have hset : a.isSetMode = false := by rw [he]; rfl
        rw [step_mode w w2 a hs hset] at hne
        have := hI hne
        rw [h1]; omega
    · intro _; decide
  rcases hmode with hm | hm
  · exact hI (by rw [hm]; decide)
  · exact hI (by rw [hm]; decide)

/-- C4 amended, at a concrete run that changes the mode only when idle. -/
theorem C4_single_task_amended_witness :
    World.allows setModeWhenSingle World.new [Action.setMode Mode.Mode_Fifo,
      Action.startExecQuery "A", Action.startExecQuery "B"] = true ∧
    (∃ w, World.new.run [Action.setMode Mode.Mode_Fifo,
      Action.startExecQuery "A", Action.startExecQuery "B"] = some w ∧
      w.sched.mode = Mode.Mode_Fifo ∧ w.sched.ququ.length = 1 ∧ w.sched.taskCnt ≤ 1) :=
  ⟨by decide, _, rfl, by decide, by decide,
    C4_single_task_amended [Action.setMode Mode.Mode_Fifo,
      Action.startExecQuery "A", Action.startExecQuery "B"] _ (by decide) rfl
      (Or.inl (by decide))⟩

/-- C5 as stated fails: a request queued in Fifo mode is still in the queue
after `setMode(Mode_Parallel)`. -/
theorem C5_parallel_queue_counterexample :
    ∃ w, World.new.run switchToParallelDemo = some w ∧
      w.sched.mode = Mode.Mode_Parallel ∧ w.sched.ququ ≠ [] :=
  ⟨_, rfl, by decide, by decide⟩

/-- C5 (Parallel mode never queues), amended. In every state reached from a
new scheduler by a sequence of actions in which `setMode(Mode_Parallel)` is
called only while the pending queue is empty, if the mode is Parallel then the
pending queue is empty. -/
theorem C5_parallel_queue_amended (acts : List Action) (w : World)
    (hguard : World.allows setParallelWhenEmpty World.new acts = true)
    (hrun : World.new.run acts = some w)
    (hmode : w.sched.mode = Mode.Mode_Parallel) :
    w.sched.ququ = [] := by
  refine run_invariant (fun w => w.sched.mode = Mode.Mode_Parallel → w.sched.ququ = [])
    setParallelWhenEmpty ?_ acts World.new w ?_ hguard hrun hmode
  · intro w a w2 hI hok hs hm2
    rcases step_kinds w w2 a hs with hk | hk | hk | hk | hk
    · obtain ⟨_, _, _, h1, _⟩ := hk
      rw [h1]
      cases a with
      | setMode m =>
        have hm := step_setMode w w2 m hs
        simp only [setParallelWhenEmpty, decide_eq_true_eq] at hok
        rcases hok with hok | hok
        · rw [hm] at hm2; exact absurd hm2 hok
        · exact hok
      | _ =>
        exact hI (by rw [← step_mode w w2 _ hs rfl]; exact hm2)
    · obtain ⟨ha, _, _, h1, _⟩ := hk
      have hset : a.isSetMode = false := by
        cases a <;> simp [Action.isStartExec] at ha <;> rfl
      rw [step_mode w w2 a hs hset] at hm2
      rw [h1]; exact hI hm2
    · obtain ⟨ha, hne1, _⟩ := hk
      have hset : a.isSetMode = false := by
        cases a <;> simp [Action.isStartExec] at ha <;> rfl
      rw [step_mode w w2 a hs hset] at hm2
      exact absurd hm2 hne1
    · obtain ⟨i, r, t, x, rest, he, _, hne1, _⟩ := hk
      have hset : a.isSetMode = false := by rw [he]; rfl
      rw [step_mode w w2 a hs hset] at hm2
      exact absurd hm2 hne1
    · obtain ⟨i, r, t, he, _, _, _, h1, _⟩ := hk
      have hset : a.isSetMode = false := by rw [he]; rfl
      rw [step_mode w w2 a hs hset] at hm2
      rw [h1]; exact hI hm2
  · intro _; rfl

/-- C5 amended, at a concrete run that returns to Parallel mode when the queue
is empty. -/
theorem C5_parallel_queue_amended_witness :
    World.allows setParallelWhenEmpty World.new switchWhenIdleDemo = true ∧
    World.new.run switchWhenIdleDemo = some switchWhenIdleWorld ∧
    switchWhenIdleWorld.sched.mode = Mode.Mode_Parallel ∧
    switchWhenIdleWorld.sched.taskCnt = 2 ∧
    switchWhenIdleWorld.sched.ququ = [] :=
  ⟨by decide, by decide, by decide, by decide,
    C5_parallel_queue_amended switchWhenIdleDemo switchWhenIdleWorld (by decide)
      (by decide) (by decide)⟩


/-! ## Busy-state signals -/

theorem alternation_succ (n : Nat) :
    alternation (n + 1) = alternation n ++ [decide (n % 2 = 0)] := by
  simp [alternation, List.range_succ]

theorem alternation_length (n : Nat) : (alternation n).length = n := by
  simp [alternation]

theorem busyInv_step (w w2 : World) (a : Action) (hI : w.BusyInv)
    (h : w.step a = some w2) : w2.BusyInv := by
  obtain ⟨hc, n, hb, hn⟩ := hI
  have hc2 := count_step w w2 a hc h
  have hpos : 0 ≤ w.sched.taskCnt := by rw [hc]; exact Int.natCast_nonneg _
  have hpos2 : 0 ≤ w2.sched.taskCnt := by rw [hc2]; exact Int.natCast_nonneg _
  refine ⟨hc2, ?_⟩
  rcases step_kinds w w2 a h with hk | hk | hk | hk | hk
  · obtain ⟨_, _, h1, _, _, _, _, h2, _⟩ := hk
    exact ⟨n, by rw [h2, hb], by rw [h1]; exact hn⟩
  · obtain ⟨_, _, h1, _, _, _, _, h2, _⟩ := hk
    by_cases h0 : w.sched.taskCnt = 0
    · refine ⟨n + 1, ?_, ?_⟩
      · rw [h2, hb, if_pos h0, alternation_succ]
        simp [hn.2 h0]
      · rw [h1, h0]
        have := hn.2 h0
        constructor
        · intro h; omega
        · intro h; simp at h
    · refine ⟨n, by rw [h2, hb, if_neg h0]; simp, ?_⟩
      constructor
      · intro h; exact absurd (hn.1 h) h0
      · intro h; rw [h1] at h; omega
  · obtain ⟨_, _, _, h1, _, _, _, _, h2, _⟩ := hk
    exact ⟨n, by rw [h2, hb], by rw [h1]; exact hn⟩
  · obtain ⟨_, _, _, _, _, _, _, _, _, h1, _, _, _, _, h2, _⟩ := hk
    exact ⟨n, by rw [h2, hb], by rw [h1]; exact hn⟩
  · obtain ⟨i, r, t, _, _, _, h1, _, _, _, _, h2, _⟩ := hk
    by_cases h0 : w.sched.taskCnt = 1
    · have hodd : n % 2 = 1 := by
        have : ¬ n % 2 = 0 := fun e => by
          have := hn.1 e
          omega
        omega
      refine ⟨n + 1, ?_, ?_⟩
      · rw [h2, hb, if_pos h0, alternation_succ]
        simp [hodd]
      · rw [h1, h0]
        constructor
        · intro _; rfl
        · intro _; omega
    · refine ⟨n, by rw [h2, hb, if_neg h0]; simp, ?_⟩
      constructor
      · intro h
        have := hn.1 h
        rw [h1] at hpos2
        omega
      · intro h; rw [h1] at h; omega

/-- C6 (busy-state edges). For every scheduler state: a dispatch emits
`busyChanged(true)` exactly when it takes the in-flight count from 0 to 1 and
never emits `busyChanged(false)`; a completion emits `busyChanged(false)`
exactly when it takes the count from 1 to 0 and never emits
`busyChanged(true)`; a completion that starts the next queued request (mode
not Parallel, queue not empty) emits no `busyChanged` and leaves the count as
it is. And along every run from a new scheduler the emitted values are
`true, false, true, ...`, the number of them being even exactly when no task
is in flight. -/
theorem C6_busy_edges :
    (∀ s : AsyncQuery,
      busyEvents s.startExecIntern.2 =
        (if s.taskCnt = 0 ∧ s.startExecIntern.1.taskCnt = 1 then [true] else [])) ∧
    (∀ (s : AsyncQuery) (r : AsyncQueryResult),
      busyEvents (s.taskCallback r).2 =
        (if s.taskCnt = 1 ∧ (s.taskCallback r).1.taskCnt = 0 then [false] else [])) ∧
    (∀ (s : AsyncQuery) (r : AsyncQueryResult),
      s.mode ≠ Mode.Mode_Parallel → s.ququ ≠ [] →
      busyEvents (s.taskCallback r).2 = [] ∧ (s.taskCallback r).1.taskCnt = s.taskCnt ∧
      startedQueries (s.taskCallback r).2 = s.ququ.take 1) ∧
    (∀ (acts : List Action) (w : World), World.new.run acts = some w →
      busyEvents w.trace = alternation (busyEvents w.trace).length ∧
      ((busyEvents w.trace).length % 2 = 0 ↔ w.sched.taskCnt = 0)) := by
  refine ⟨?_, ?_, ?_, ?_⟩
  · intro s
    by_cases h : s.mode = Mode.Mode_Parallel ∨ s.taskCnt = 0
    · rw [startExecIntern_spawn s h]
      by_cases h0 : s.taskCnt = 0 <;> simp [busyEvents, Event.busy?, h0]
    · have hp : s.mode ≠ Mode.Mode_Parallel := fun e => h (Or.inl e)
      have hc : s.taskCnt ≠ 0 := fun e => h (Or.inr e)
      by_cases hf : s.mode = Mode.Mode_Fifo
      · rw [startExecIntern_fifo s hf hc]
        simp [busyEvents, Event.busy?, hc]
      · have hs : s.mode = Mode.Mode_SkipPrevious := by
          cases hq : s.mode <;> simp_all
        rw [startExecIntern_skip s hs hc]
        simp [busyEvents, Event.busy?, hc]
  · intro s r
    by_cases hc : s.mode = Mode.Mode_Parallel ∨ s.ququ = []
    · rw [taskCallback_release s r hc]
      by_cases h1 : s.taskCnt = 1 <;> by_cases hd : s.deleteOnDone = true <;>
        simp [busyEvents, Event.busy?, h1, hd]
    · have hp : s.mode ≠ Mode.Mode_Parallel := fun e => hc (Or.inl e)
      obtain ⟨x, rest, hq⟩ : ∃ x rest, s.ququ = x :: rest := by
        cases hq : s.ququ with
        | nil => exact absurd (Or.inr hq) hc
        | cons x rest => exact ⟨x, rest, rfl⟩
      rw [taskCallback_handoff s r x rest hp hq]
      by_cases h1 : s.taskCnt = 1 <;> by_cases hd : s.deleteOnDone = true <;>
        simp [busyEvents, Event.busy?, h1, hd]
  · intro s r hp hne
    obtain ⟨x, rest, hq⟩ : ∃ x rest, s.ququ = x :: rest := by
      cases hq : s.ququ with
      | nil => exact absurd hq hne
      | cons x rest => exact ⟨x, rest, rfl⟩
    rw [taskCallback_handoff s r x rest hp hq, hq]
    by_cases hd : s.deleteOnDone = true <;>
      simp [busyEvents, Event.busy?, startedQueries, startedTasks, Event.task?, hd]
  · intro acts w hrun
    have h0 : World.new.BusyInv := ⟨rfl, 0, rfl, by decide⟩
    have hall : World.allows (fun _ _ => true) World.new acts = true :=
      allows_of_forall (fun _ => true) acts (fun _ _ => rfl) _
    have hI : w.BusyInv :=
      run_invariant World.BusyInv (fun _ _ => true)
        (fun w a w2 hI _ hs => busyInv_step w w2 a hI hs) acts World.new w h0 hall hrun
    obtain ⟨_, n, hb, hn⟩ := hI
    have hlen : (busyEvents w.trace).length = n := by rw [hb, alternation_length]
    rw [hlen]
    exact ⟨hb, hn⟩

/-- C6 at a concrete run with two busy periods, a handoff and a mode change:
the signals are `true, false, true`. -/
theorem C6_busy_edges_witness :
    World.new.run busyDemo = some busyDemoWorld ∧
    busyEvents busyDemoWorld.trace = [true, false, true] ∧
    busyDemoWorld.sched.taskCnt = 1 ∧
    busyEvents busyDemoWorld.trace = alternation (busyEvents busyDemoWorld.trace).length :=
  ⟨by decide, by decide, by decide,
    (C6_busy_edges.2.2.2 busyDemo busyDemoWorld (by decide)).1⟩


/-! ## waitDone -/

/-- C7 as stated fails: in Fifo mode with A running and B queued, the
completion of A starts B, leaves the in-flight count at 1, and still wakes the
wait condition: the thread blocked in `waitDone` returns `true` while a task is
in flight. -/
theorem C7_wait_done_counterexample :
    World.new.run waitDemo = some waitDemoWorld ∧
    waitDemoWorld.waitReturns = [(true, 1)] ∧ waitDemoWorld.blocked = 0 ∧
    wakes (waitDemoSched.taskCallback AsyncQueryResult.new).2 = true ∧
    (waitDemoSched.taskCallback AsyncQueryResult.new).1.taskCnt = 1 :=
  ⟨by decide, by decide, by decide, by decide, by decide⟩

/-- C7 (waitDone), amended. Every task completion wakes the wait condition,
whatever in-flight count it leaves; with a task in flight, the count it leaves
is zero exactly when the count was 1 and the completion started no queued
request. `waitDone`
returns `true` without blocking when the count is not positive, and otherwise
blocks and returns what the wait returns: `true` when woken by a completion,
`false` when the time runs out. In the world every completion releases all
blocked threads, each returning `true` with the count that completion left. -/
theorem C7_wait_done_amended :
    (∀ (s : AsyncQuery) (r : AsyncQueryResult), wakes (s.taskCallback r).2 = true) ∧
    (∀ (s : AsyncQuery) (r : AsyncQueryResult), s.taskCnt > 0 →
      ((s.taskCallback r).1.taskCnt = 0 ↔
        s.taskCnt = 1 ∧ (s.mode = Mode.Mode_Parallel ∨ s.ququ = []))) ∧
    (∀ (s : AsyncQuery) (ms : Nat) (woken : Bool),
      (¬ s.taskCnt > 0 → (s.waitDone ms woken).1 = true ∧ (s.waitDone ms woken).2.1 = false) ∧
      (s.taskCnt > 0 → (s.waitDone ms woken).1 = woken ∧ (s.waitDone ms woken).2.1 = true)) ∧
    (∀ (w w2 : World) (i : Nat) (r : AsyncQueryResult),
      w.step (Action.taskDone i r) = some w2 →
      w2.blocked = 0 ∧
      w2.waitReturns = w.waitReturns ++ List.replicate w.blocked (true, w2.sched.taskCnt)) := by
  have hw : ∀ (s : AsyncQuery) (r : AsyncQueryResult), wakes (s.taskCallback r).2 = true := by
    intro s r
    simp [wakes, AsyncQuery.taskCallback]
  refine ⟨hw, ?_, ?_, ?_⟩
  · intro s r hpos
    by_cases hc : s.mode = Mode.Mode_Parallel ∨ s.ququ = []
    · rw [taskCallback_release s r hc]
      constructor
      · intro h
        simp only at h
        exact ⟨by omega, hc⟩
      · rintro ⟨h1, _⟩
        simp only; omega
    · have hp : s.mode ≠ Mode.Mode_Parallel := fun e => hc (Or.inl e)
      have hq0 : s.ququ ≠ [] := fun e => hc (Or.inr e)
      obtain ⟨x, rest, hq⟩ : ∃ x rest, s.ququ = x :: rest := by
        cases hq : s.ququ with
        | nil => exact absurd hq hq0
        | cons x rest => exact ⟨x, rest, rfl⟩
      rw [taskCallback_handoff s r x rest hp hq]
      constructor
      · intro h
        simp only at h
        omega
      · rintro ⟨_, h2⟩
        exact absurd h2 hc
  · intro s ms woken
    by_cases hc : s.taskCnt > 0 <;> simp [AsyncQuery.waitDone, hc]
  · intro w w2 i r h
    cases ht : w.pool[i]? with
    | none => simp [World.step, ht] at h
    | some t =>
      simp only [World.step, ht, Option.some.injEq] at h
      subst h
      simp [hw]

/-- C7 amended, at the scenario of the counterexample: the waiting thread
returns `true` with the count the completion left. -/
theorem C7_wait_done_amended_witness :
    waitDemoSched.taskCnt > 0 ∧
    ((waitDemoSched.waitDone 1000 true).1 = true ∧
      (waitDemoSched.waitDone 1000 true).2.1 = true) ∧
    (waitDemoSched.taskCallback AsyncQueryResult.new).1.taskCnt ≠ 0 :=
  ⟨by decide,
   (C7_wait_done_amended.2.2.1 waitDemoSched 1000 true).2 (by decide),
   fun h => absurd
     ((C7_wait_done_amended.2.1 waitDemoSched AsyncQueryResult.new (by decide)).1 h)
     (by decide)⟩


/-! ## The result record -/

theorem readRows_eq_map (cols : Int) (rows : List (List Cell)) :
    SqlTaskPrivate.readRows cols rows = rows.map (SqlTaskPrivate.readRow cols) := by
  induction rows with
  | nil => rfl
  | cons row rest ih => simp [SqlTaskPrivate.readRows, ih]

theorem readRow_getElem? (cols : Int) (row : List Cell) (c : Nat) (hc : (c : Int) < cols) :
    (SqlTaskPrivate.readRow cols row)[c]? =
      some (if Cell.isNullAt row c then QVariant.invalid else Cell.valueAt row c) := by
  have hlt : c < cols.toNat := by omega
  simp [SqlTaskPrivate.readRow, List.getElem?_map, List.getElem?_range hlt]

theorem materialize_value (query : QSqlQuery) (r c : Nat) (row : List Cell)
    (hr : query.rows[r]? = some row) (hc : (c : Int) < query.record.count) :
    (SqlTaskPrivate.materialize query).value r c =
      some (if Cell.isNullAt row c then QVariant.invalid else Cell.valueAt row c) := by
  have hlen : r < query.rows.length := (List.getElem?_eq_some.1 hr).1
  have hdata : (SqlTaskPrivate.materialize query).data =
      query.rows.map (SqlTaskPrivate.readRow query.record.count) := by
    simp [SqlTaskPrivate.materialize, AsyncQueryResult.new, readRows_eq_map]
  have hrec : (SqlTaskPrivate.materialize query).record = query.record := rfl
  unfold AsyncQueryResult.value
  rw [hdata, hrec]
  have h1 : (r : Int) ≥ 0 ∧ (r : Int) <
      ((query.rows.map (SqlTaskPrivate.readRow query.record.count)).length : Int) := by
    rw [List.length_map]
    exact ⟨Int.natCast_nonneg _, by exact_mod_cast hlen⟩
  have h2 : (c : Int) ≥ 0 ∧ (c : Int) < query.record.count := ⟨Int.natCast_nonneg _, hc⟩
  rw [if_pos h1, if_pos h2]
  simp only [Int.toNat_ofNat, List.getD_eq_getElem?_getD, List.getElem?_map, hr,
    Option.map_some', Option.getD_some]
  exact readRow_getElem? _ row c hc

/-- C8 (result round trip). The result built by the worker from a query
positioned before `M` rows, with a record of `N` columns, has `count() = M`
and the query's record as head record; for every row `r < M` and column
`c < N`, `value(r, c)` is the driver's `value(c)` on row `r` when the driver
reports the cell as not null and the empty `QVariant` when it reports it as
null; and this result is the one `run` delivers in its `execDone` signal. -/
theorem C8_result_round_trip :
    (∀ query : QSqlQuery,
      (SqlTaskPrivate.materialize query).count = (query.rows.length : Int) ∧
      (SqlTaskPrivate.materialize query).headRecord = query.record) ∧
    (∀ (query : QSqlQuery) (r c : Nat) (row : List Cell),
      query.rows[r]? = some row → (c : Int) < query.record.count →
      (Cell.isNullAt row c = false →
        (SqlTaskPrivate.materialize query).value r c = some (Cell.valueAt row c)) ∧
      (Cell.isNullAt row c = true →
        (SqlTaskPrivate.materialize query).value r c = some QVariant.invalid)) ∧
    (∀ (t : SqlTaskPrivate) (drv : Driver) (curThread : Nat) (conmgr : ConnectionManager)
      (inst : AsyncQuery) (out : ConnectionManager × AsyncQuery × List Event),
      t.run drv curThread conmgr inst = some out →
      notifications out.2.2 =
        [SqlTaskPrivate.materialize (t.execute drv (out.1.threadConnection curThread))]) := by
  refine ⟨?_, ?_, ?_⟩
  · intro query
    refine ⟨?_, rfl⟩
    simp [AsyncQueryResult.count, SqlTaskPrivate.materialize, AsyncQueryResult.new,
      readRows_eq_map]
  · intro query r c row hr hc
    have h := materialize_value query r c row hr hc
    constructor
    · intro hn
      rw [h, hn]; rfl
    · intro hn
      rw [h, hn]; rfl
  · intro t drv curThread conmgr inst out hrun
    have hnote := notifications_taskCallback
    unfold SqlTaskPrivate.run at hrun
    by_cases hex : (!conmgr.connectionExists curThread) = true
    · by_cases hop : (conmgr.openConnection drv.opens curThread).1 = true
      · simp only [hex, hop, if_true, Option.some.injEq] at hrun
        subst hrun
        exact hnote _ _
      · simp [hex, hop] at hrun
    · simp only [hex, Option.some.injEq] at hrun
      simp only [Bool.false_eq_true, if_false, Option.some.injEq] at hrun
      subst hrun
      exact hnote _ _

/-- C8 at a concrete result set of two columns and two rows with one null cell. -/
theorem C8_result_round_trip_witness :
    (SqlTaskPrivate.materialize roundTripQuery).count = 2 ∧
    (SqlTaskPrivate.materialize roundTripQuery).value 1 1 = some (QVariant.string "two") ∧
    (SqlTaskPrivate.materialize roundTripQuery).value 0 1 = some QVariant.invalid :=
  ⟨by decide,
   (C8_result_round_trip.2.1 roundTripQuery 1 1 _ rfl (by decide)).1 (by decide),
   (C8_result_round_trip.2.1 roundTripQuery 0 1 _ rfl (by decide)).2 (by decide)⟩


theorem firstIndex_none (p : String → Bool) (fs : List String) (i : Int)
    (h : ∀ f ∈ fs, p f = false) : firstIndex p fs i = -1 := by
  induction fs generalizing i with
  | nil => rfl
  | cons f fs ih =>
    have hf : p f = false := h f (List.mem_cons_self f fs)
    simp only [firstIndex, hf, Bool.false_eq_true, if_false]
    exact ih (i + 1) (fun g hg => h g (List.mem_cons_of_mem f hg))

/-- C9 (invalid cell access). For every result, `value(row, col)` is the empty
`QVariant` whenever `row < 0`, `row >= count()`, `col < 0` or
`col >= headRecord().count()`; `value(row, name)` is `value(row, i)` for `i`
the index `indexOf` gives for `name` in the head record; and it is the empty
`QVariant` when no field of the head record matches `name`. -/
theorem C9_invalid_cell_access :
    (∀ (res : AsyncQueryResult) (row col : Int),
      (row < 0 ∨ row ≥ res.count ∨ col < 0 ∨ col ≥ res.headRecord.count) →
      res.value row col = some QVariant.invalid) ∧
    (∀ (fieldMatch : String → String → Bool) (res : AsyncQueryResult) (row : Int)
      (name : String),
      res.valueByName fieldMatch row name =
        res.value row (res.headRecord.indexOf fieldMatch name)) ∧
    (∀ (fieldMatch : String → String → Bool) (res : AsyncQueryResult) (row : Int)
      (name : String),
      (∀ f ∈ res.headRecord.fields, fieldMatch f name = false) →
      res.headRecord.indexOf fieldMatch name = -1 ∧
      res.valueByName fieldMatch row name = some QVariant.invalid) := by
  have hval : ∀ (res : AsyncQueryResult) (row col : Int),
      (row < 0 ∨ row ≥ res.count ∨ col < 0 ∨ col ≥ res.headRecord.count) →
      res.value row col = some QVariant.invalid := by
    intro res row col h
    unfold AsyncQueryResult.value
    simp only [AsyncQueryResult.count, AsyncQueryResult.headRecord] at h
    by_cases h1 : row ≥ 0 ∧ row < (res.data.length : Int)
    · by_cases h2 : col ≥ 0 ∧ col < res.record.count
      · omega
      · rw [if_pos h1, if_neg h2]
    · rw [if_neg h1]
  refine ⟨hval, fun _ _ _ _ => rfl, ?_⟩
  intro fieldMatch res row name hno
  have hidx : res.headRecord.indexOf fieldMatch name = -1 :=
    firstIndex_none _ _ 0 hno
  refine ⟨hidx, ?_⟩
  show res.value row (res.record.indexOf fieldMatch name) = some QVariant.invalid
  exact hval res row _ (Or.inr (Or.inr (Or.inl (by
    have : res.record.indexOf fieldMatch name = -1 := hidx
    rw [this]; decide))))

/-- C9 at a concrete result of two rows and two columns: a row past the end, a
negative column, and a column name the record does not have. -/
theorem C9_invalid_cell_access_witness :
    cellDemo.value 2 0 = some QVariant.invalid ∧
    cellDemo.value 0 (-1) = some QVariant.invalid ∧
    cellDemo.valueByName (fun a b => a == b) 0 "age" = some QVariant.invalid ∧
    cellDemo.valueByName (fun a b => a == b) 1 "name" = some (QVariant.string "two") :=
  ⟨C9_invalid_cell_access.1 cellDemo 2 0 (Or.inr (Or.inl (by decide))),
   C9_invalid_cell_access.1 cellDemo 0 (-1) (Or.inr (Or.inr (Or.inl (by decide)))),
   (C9_invalid_cell_access.2.2 (fun a b => a == b) cellDemo 0 "age" (by decide)).2,
   by decide⟩

/-! ## The connection registry -/

theorem find_insert_self {ν : Type} (k : Nat) (v : ν) (m : List (Nat × ν)) :
    QMap.find k (QMap.insert k v m) = some v := by
  induction m with
  | nil => simp [QMap.insert, QMap.find]
  | cons e m ih =>
    obtain ⟨k2, v2⟩ := e
    by_cases h1 : k = k2
    · simp [QMap.insert, QMap.find, h1]
    · by_cases h2 : k < k2
      · simp [QMap.insert, QMap.find, h1, h2]
      · simp [QMap.insert, QMap.find, h1, h2, ih]

theorem find_insert_other {ν : Type} (k t : Nat) (v : ν) (m : List (Nat × ν)) (h : t ≠ k) :
    QMap.find t (QMap.insert k v m) = QMap.find t m := by
  induction m with
  | nil => simp [QMap.insert, QMap.find, h]
  | cons e m ih =>
    obtain ⟨k2, v2⟩ := e
    by_cases h1 : k = k2
    · subst h1
      simp [QMap.insert, QMap.find, h]
    · by_cases h2 : k < k2
      · simp [QMap.insert, QMap.find, h1, h2, h]
      · by_cases h3 : t = k2
        · simp [QMap.insert, QMap.find, h1, h2, h3]
        · simp [QMap.insert, QMap.find, h1, h2, h3, ih]

theorem length_insert_new {ν : Type} (k : Nat) (v : ν) (m : List (Nat × ν))
    (h : QMap.find k m = none) : (QMap.insert k v m).length = m.length + 1 := by
  induction m with
  | nil => simp [QMap.insert]
  | cons e m ih =>
    obtain ⟨k2, v2⟩ := e
    by_cases h1 : k = k2
    · simp [QMap.find, h1] at h
    · simp only [QMap.find, h1, if_false] at h
      by_cases h2 : k < k2
      · simp [QMap.insert, h1, h2]
      · simp [QMap.insert, h1, h2, ih h]

/-- C10 (open per thread). For every manager, driver and calling thread `T`:
if `T` has a registered connection, `open()` returns `true` and the manager is
unchanged; otherwise, if the driver opens the new handle, `open()` returns
`true`, the settings are unchanged, and the map is the old one with the opened
handle inserted under `T`: `T` now maps to it and the map has one entry more;
and if the driver fails, `open()` returns `false` and the manager is
unchanged. In all cases the entry of every other thread is as before. -/
theorem C10_open_per_thread (c : ConnectionManager) (driverOpen : QSqlDatabase → Bool)
    (T : Nat) :
    (c.connectionExists T = true → c.openConnection driverOpen T = (true, c)) ∧
    (c.connectionExists T = false → driverOpen (c.newConnection T) = true →
      (c.openConnection driverOpen T).1 = true ∧
      (c.openConnection driverOpen T).2 =
        { c with conns := QMap.insert T { c.newConnection T with opened := true } c.conns } ∧
      QMap.find T (c.openConnection driverOpen T).2.conns =
        some { c.newConnection T with opened := true } ∧
      (c.openConnection driverOpen T).2.connectionExists T = true ∧
      (c.openConnection driverOpen T).2.connectionCount = c.connectionCount + 1) ∧
    (c.connectionExists T = false → driverOpen (c.newConnection T) = false →
      c.openConnection driverOpen T = (false, c)) ∧
    (∀ t, t ≠ T →
      QMap.find t (c.openConnection driverOpen T).2.conns = QMap.find t c.conns) := by
  have hopen : c.connectionExists T = false → driverOpen (c.newConnection T) = true →
      c.openConnection driverOpen T =
        (true, { c with
          conns := QMap.insert T { c.newConnection T with opened := true } c.conns }) := by
    intro hex hok
    simp only [ConnectionManager.connectionExists] at hex
    simp [ConnectionManager.openConnection, hex, hok]
  have hfail : c.connectionExists T = false → driverOpen (c.newConnection T) = false →
      c.openConnection driverOpen T = (false, c) := by
    intro hex hok
    simp only [ConnectionManager.connectionExists] at hex
    simp [ConnectionManager.openConnection, hex, hok]
  have hexists : c.connectionExists T = true → c.openConnection driverOpen T = (true, c) := by
    intro hex
    simp only [ConnectionManager.connectionExists] at hex
    simp [ConnectionManager.openConnection, hex]
  refine ⟨hexists, ?_, hfail, ?_⟩
  · intro hex hok
    rw [hopen hex hok]
    refine ⟨rfl, rfl, find_insert_self _ _ _, ?_, ?_⟩
    · simp [ConnectionManager.connectionExists, QMap.contains, find_insert_self]
    · have hnone : QMap.find T c.conns = none := by
        simp only [ConnectionManager.connectionExists, QMap.contains] at hex
        cases hf : QMap.find T c.conns with
        | none => rfl
        | some v => rw [hf] at hex; simp at hex
      simp [ConnectionManager.connectionCount, length_insert_new _ _ _ hnone]
  · intro t ht
    by_cases hex : c.connectionExists T = true
    · rw [hexists hex]
    · have hex2 : c.connectionExists T = false := by simpa using hex
      by_cases hok : driverOpen (c.newConnection T) = true
      · rw [hopen hex2 hok]
        exact find_insert_other _ _ _ _ ht
      · rw [hfail hex2 (by simpa using hok)]

/-- C10 at a concrete manager: thread 7 is registered, thread 9 is not. -/
theorem C10_open_per_thread_witness :
    registryDemo.openConnection (fun _ => false) 7 = (true, registryDemo) ∧
    (registryDemo.openConnection (fun _ => true) 9).2.connectionCount = 2 ∧
    registryDemo.openConnection (fun _ => false) 9 = (false, registryDemo) :=
  ⟨(C10_open_per_thread registryDemo (fun _ => false) 7).1 (by decide),
   by
     rw [((C10_open_per_thread registryDemo (fun _ => true) 9).2.1 (by decide) rfl).2.2.2.2]
     decide,
   (C10_open_per_thread registryDemo (fun _ => false) 9).2.2.1 (by decide) rfl⟩

/-! ## Lock discipline -/

/-- C11 (no notification under the lock) fails for `busyChanged`. On a new
scheduler `startExec("SELECT 1")` emits `busyChanged(true)` between taking and
releasing the mutex, and the completion of that task emits
`busyChanged(false)` in the same way. In general every `busyChanged` of a
dispatch and of a completion is emitted with the mutex held, while the
`execDone` of a completion is always emitted after the mutex is released. -/
theorem C11_busy_signal_under_lock :
    (AsyncQuery.new.startExecQuery "SELECT 1").2 =
      [Event.lock, Event.busyChanged true,
       Event.poolStart
         { query := { isPrepared := false, query := "SELECT 1", boundValues := [] },
           delayMs := 0 },
       Event.unlock] ∧
    emittedUnderLock false (AsyncQuery.new.startExecQuery "SELECT 1").2 =
      [Event.busyChanged true] ∧
    emittedUnderLock false
        (((AsyncQuery.new.startExecQuery "SELECT 1").1.taskCallback AsyncQueryResult.new).2) =
      [Event.busyChanged false] ∧
    emittedUnderLock false (lockDemoSched.taskCallback AsyncQueryResult.new).2 = [] ∧
    (∀ s : AsyncQuery,
      busyEvents (emittedUnderLock false s.startExecIntern.2) = busyEvents s.startExecIntern.2) ∧
    (∀ (s : AsyncQuery) (r : AsyncQueryResult),
      busyEvents (emittedUnderLock false (s.taskCallback r).2) =
        busyEvents (s.taskCallback r).2 ∧
      notifications (emittedUnderLock false (s.taskCallback r).2) = [] ∧
      notifications (s.taskCallback r).2 = [r]) := by
  refine ⟨by decide, by decide, by decide, by decide, ?_, ?_⟩
  · intro s
    by_cases h : s.mode = Mode.Mode_Parallel ∨ s.taskCnt = 0
    · rw [startExecIntern_spawn s h]
      by_cases h0 : s.taskCnt = 0 <;>
        simp [emittedUnderLock, busyEvents, Event.busy?, Event.isSignal, h0]
    · have hp : s.mode ≠ Mode.Mode_Parallel := fun e => h (Or.inl e)
      have hc : s.taskCnt ≠ 0 := fun e => h (Or.inr e)
      by_cases hf : s.mode = Mode.Mode_Fifo
      · rw [startExecIntern_fifo s hf hc]
        simp [emittedUnderLock, busyEvents, Event.busy?]
      · have hs : s.mode = Mode.Mode_SkipPrevious := by
          cases hq : s.mode <;> simp_all
        rw [startExecIntern_skip s hs hc]
        simp [emittedUnderLock, busyEvents, Event.busy?]
  · intro s r
    refine ⟨?_, ?_, notifications_taskCallback s r⟩
    · by_cases hc : s.mode = Mode.Mode_Parallel ∨ s.ququ = []
      · rw [taskCallback_release s r hc]
        by_cases h1 : s.taskCnt = 1 <;> by_cases hd : s.deleteOnDone = true <;>
          simp [emittedUnderLock, busyEvents, Event.busy?, Event.isSignal, h1, hd]
      · have hp : s.mode ≠ Mode.Mode_Parallel := fun e => hc (Or.inl e)
        obtain ⟨x, rest, hq⟩ : ∃ x rest, s.ququ = x :: rest := by
          cases hq : s.ququ with
          | nil => exact absurd (Or.inr hq) hc
          | cons x rest => exact ⟨x, rest, rfl⟩
        rw [taskCallback_handoff s r x rest hp hq]
        by_cases hd : s.deleteOnDone = true <;>
          simp [emittedUnderLock, busyEvents, Event.busy?, Event.isSignal, hd]
    · by_cases hc : s.mode = Mode.Mode_Parallel ∨ s.ququ = []
      · rw [taskCallback_release s r hc]
        by_cases h1 : s.taskCnt = 1 <;> by_cases hd : s.deleteOnDone = true <;>
          simp [emittedUnderLock, notifications, Event.done?, Event.isSignal, h1, hd]
      · have hp : s.mode ≠ Mode.Mode_Parallel := fun e => hc (Or.inl e)
        obtain ⟨x, rest, hq⟩ : ∃ x rest, s.ququ = x :: rest := by
          cases hq : s.ququ with
          | nil => exact absurd (Or.inr hq) hc
          | cons x rest => exact ⟨x, rest, rfl⟩
        rw [taskCallback_handoff s r x rest hp hq]
        by_cases hd : s.deleteOnDone = true <;>
          simp [emittedUnderLock, notifications, Event.done?, Event.isSignal, hd]

/-! ## Statement failure -/

theorem bindAll_fold (kvs : List (String × QVariant)) (q : QSqlQuery) :
    (kvs.foldl (fun q kv => QSqlQuery.bindValue q kv.1 kv.2) q).record = q.record ∧
    (kvs.foldl (fun q kv => QSqlQuery.bindValue q kv.1 kv.2) q).lastError = q.lastError ∧
    (kvs.foldl (fun q kv => QSqlQuery.bindValue q kv.1 kv.2) q).rows = q.rows ∧
    (kvs.foldl (fun q kv => QSqlQuery.bindValue q kv.1 kv.2) q).bound = q.bound ++ kvs := by
  induction kvs generalizing q with
  | nil => simp
  | cons kv kvs ih =>
    obtain ⟨h1, h2, h3, h4⟩ := ih (q.bindValue kv.1 kv.2)
    simp only [List.foldl_cons]
    refine ⟨h1, h2, h3, ?_⟩
    rw [h4]
    simp [QSqlQuery.bindValue]

/-- The result built from a query that is not active: the query's error, no
row, and valid exactly when no error is set. -/
theorem materialize_inactive (q : QSqlQuery) (h : q.rows = []) :
    (SqlTaskPrivate.materialize q).error = q.lastError ∧
    (SqlTaskPrivate.materialize q).count = 0 ∧
    (SqlTaskPrivate.materialize q).isValid = !q.lastError.isValid := by
  refine ⟨rfl, ?_, rfl⟩
  simp [AsyncQueryResult.count, SqlTaskPrivate.materialize, AsyncQueryResult.new, h,
    SqlTaskPrivate.readRows]

/-- C12 as stated fails: `startExec("")` starts a task whose `exec("")` returns
`false` with no error set on the query; `run` delivers one result, and that
result has no error, so `isValid()` is `true`. -/
theorem C12_failure_without_error_counterexample :
    (demoDriver.exec QSqlDatabase.invalid emptyTask.query.query).1 = false ∧
    (∃ conmgr1 result,
      emptyTask.run demoDriver 3 ConnectionManager.new AsyncQuery.new =
        some (conmgr1, (AsyncQuery.new.taskCallback result).1,
          (AsyncQuery.new.taskCallback result).2) ∧
      notifications (AsyncQuery.new.taskCallback result).2 = [result] ∧
      result.isValid = true ∧ result.count = 0 ∧ result.error = QSqlError.none) :=
  ⟨by decide, _, _, rfl, by decide, by decide, by decide, by decide⟩

/-- C12 (exactly one delivery per task), amended. When the calling thread has
a connection or the driver opens one, `run` returns, having called
`taskCallback` once on the scheduler, with the result built from the executed
query: the events are those of that one call and hold exactly one `execDone`.
For every connection `db`: if the request is prepared and `prepare` returns
`false`, the result carries the error `prepare` left on the query and has no
row, and it is the same whatever the driver would answer to `exec`, which is
not called; if `prepare` returns `true` and `exec()` returns `false`, or the
request is raw and `exec(text)` returns `false`, the result carries the error
that call left on the query and has no row. In each case `isValid()` is
`false` exactly when that error is set. -/
theorem C12_one_delivery_amended (t : SqlTaskPrivate) (drv : Driver) :
    (∀ (curThread : Nat) (conmgr : ConnectionManager) (inst : AsyncQuery),
      (conmgr.connectionExists curThread = true ∨
        drv.opens (conmgr.newConnection curThread) = true) →
      ∃ conmgr1 result,
        t.run drv curThread conmgr inst =
          some (conmgr1, (inst.taskCallback result).1, (inst.taskCallback result).2) ∧
        conmgr1.connectionExists curThread = true ∧
        result = SqlTaskPrivate.materialize
          (t.execute drv (conmgr1.threadConnection curThread)) ∧
        notifications (inst.taskCallback result).2 = [result]) ∧
    (∀ db : QSqlDatabase,
      (t.query.isPrepared = true → (drv.prepare db t.query.query).1 = false →
        (SqlTaskPrivate.materialize (t.execute drv db)).error =
          (drv.prepare db t.query.query).2.lastError ∧
        (SqlTaskPrivate.materialize (t.execute drv db)).count = 0 ∧
        ((SqlTaskPrivate.materialize (t.execute drv db)).isValid = false ↔
          (drv.prepare db t.query.query).2.lastError.isValid = true) ∧
        (∀ f g, t.execute { drv with execPrepared := f, exec := g } db = t.execute drv db)) ∧
      (t.query.isPrepared = true → (drv.prepare db t.query.query).1 = true →
        (drv.execPrepared db (t.bindAll (QSqlQuery.prepare drv db t.query.query).2)).1
          = false →
        (SqlTaskPrivate.materialize (t.execute drv db)).error =
          (drv.execPrepared db
            (t.bindAll (QSqlQuery.prepare drv db t.query.query).2)).2.lastError ∧
        (SqlTaskPrivate.materialize (t.execute drv db)).count = 0 ∧
        ((SqlTaskPrivate.materialize (t.execute drv db)).isValid = false ↔
          (drv.execPrepared db
            (t.bindAll (QSqlQuery.prepare drv db t.query.query).2)).2.lastError.isValid
            = true)) ∧
      (t.query.isPrepared = false → (drv.exec db t.query.query).1 = false →
        (SqlTaskPrivate.materialize (t.execute drv db)).error =
          (drv.exec db t.query.query).2.lastError ∧
        (SqlTaskPrivate.materialize (t.execute drv db)).count = 0 ∧
        ((SqlTaskPrivate.materialize (t.execute drv db)).isValid = false ↔
          (drv.exec db t.query.query).2.lastError.isValid = true))) := by
  have hvalid : ∀ (q : QSqlQuery) (e : QSqlError),
      (SqlTaskPrivate.materialize q).isValid = (!q.lastError.isValid) →
      q.lastError = e →
      ((SqlTaskPrivate.materialize q).isValid = false ↔ e.isValid = true) := by
    intro q e h1 h2
    rw [h1, h2]
    cases e.isValid <;> simp
  refine ⟨?_, ?_⟩
  · intro curThread conmgr inst havail
    by_cases hex : conmgr.connectionExists curThread = true
    · refine ⟨conmgr, _, ?_, hex, rfl, notifications_taskCallback _ _⟩
      simp [SqlTaskPrivate.run, hex]
    · have hex2 : conmgr.connectionExists curThread = false := by simpa using hex
      have hok : drv.opens (conmgr.newConnection curThread) = true := by
        rcases havail with h | h
        · exact absurd h hex
        · exact h
      have hcont : QMap.contains curThread conmgr.conns = false := hex2
      have hopen : conmgr.openConnection drv.opens curThread =
          (true, { conmgr with
            conns := QMap.insert curThread
              ({ conmgr.newConnection curThread with opened := true }) conmgr.conns }) := by
        simp [ConnectionManager.openConnection, hcont, hok]
      refine ⟨(conmgr.openConnection drv.opens curThread).2, _, ?_, ?_, rfl,
        notifications_taskCallback _ _⟩
      · simp [SqlTaskPrivate.run, hex2, hopen]
      · rw [hopen]
        simp [ConnectionManager.connectionExists, QMap.contains, find_insert_self]
  · intro db
    refine ⟨?_, ?_, ?_⟩
    · intro hp hfail
      have hexec : ∀ d : Driver, d.prepare = drv.prepare →
          t.execute d db = t.bindAll (QSqlQuery.prepare drv db t.query.query).2 := by
        intro d hd
        simp [SqlTaskPrivate.execute, SqlTaskPrivate.bindAll, QSqlQuery.prepare, hp, hd,
          hfail]
      have hb := bindAll_fold t.query.boundValues (QSqlQuery.prepare drv db t.query.query).2
      have hrows : (t.bindAll (QSqlQuery.prepare drv db t.query.query).2).rows = [] := by
        simp only [SqlTaskPrivate.bindAll, hb.2.2.1]
        simp [QSqlQuery.prepare, QSqlQuery.afterCall]
      have herr : (t.bindAll (QSqlQuery.prepare drv db t.query.query).2).lastError =
          (drv.prepare db t.query.query).2.lastError := by
        simp only [SqlTaskPrivate.bindAll, hb.2.1]
        simp [QSqlQuery.prepare, QSqlQuery.afterCall]
      rw [hexec drv rfl]
      obtain ⟨m1, m2, m3⟩ := materialize_inactive _ hrows
      exact ⟨by rw [m1, herr], m2, hvalid _ _ m3 herr, fun f g => hexec _ rfl⟩
    · intro hp hok hfail
      have hexec : t.execute drv db =
          (QSqlQuery.exec drv db (t.bindAll (QSqlQuery.prepare drv db t.query.query).2)).2 := by
        simp [SqlTaskPrivate.execute, SqlTaskPrivate.bindAll, QSqlQuery.prepare, hp, hok]
      have hrows : (QSqlQuery.exec drv db
          (t.bindAll (QSqlQuery.prepare drv db t.query.query).2)).2.rows = [] := by
        simp [QSqlQuery.exec, QSqlQuery.afterCall, hfail]
      have herr : (QSqlQuery.exec drv db
          (t.bindAll (QSqlQuery.prepare drv db t.query.query).2)).2.lastError =
          (drv.execPrepared db
            (t.bindAll (QSqlQuery.prepare drv db t.query.query).2)).2.lastError := by
        simp [QSqlQuery.exec, QSqlQuery.afterCall, hfail]
      rw [hexec]
      obtain ⟨m1, m2, m3⟩ := materialize_inactive _ hrows
      exact ⟨by rw [m1, herr], m2, hvalid _ _ m3 herr⟩
    · intro hp hfail
      have hexec : t.execute drv db = (QSqlQuery.execText drv db t.query.query).2 := by
        simp [SqlTaskPrivate.execute, hp]
      have hrows : (QSqlQuery.execText drv db t.query.query).2.rows = [] := by
        simp [QSqlQuery.execText, QSqlQuery.afterCall, hfail]
      have herr : (QSqlQuery.execText drv db t.query.query).2.lastError =
          (drv.exec db t.query.query).2.lastError := by
        simp [QSqlQuery.execText, QSqlQuery.afterCall, hfail]
      rw [hexec]
      obtain ⟨m1, m2, m3⟩ := materialize_inactive _ hrows
      exact ⟨by rw [m1, herr], m2, hvalid _ _ m3 herr⟩

/-- C12 amended, at a concrete task: the raw request `BAD` on a thread without
a connection, with a driver that opens the connection and fails the statement
with a syntax error. -/
theorem C12_one_delivery_amended_witness :
    demoDriver.opens (ConnectionManager.new.newConnection 3) = true ∧
    (demoDriver.exec QSqlDatabase.invalid badTask.query.query).1 = false ∧
    (∃ conmgr1 result,
      badTask.run demoDriver 3 ConnectionManager.new AsyncQuery.new =
        some (conmgr1, (AsyncQuery.new.taskCallback result).1,
          (AsyncQuery.new.taskCallback result).2) ∧
      notifications (AsyncQuery.new.taskCallback result).2 = [result]) ∧
    (SqlTaskPrivate.materialize (badTask.execute demoDriver QSqlDatabase.invalid)).error
      = syntaxError ∧
    (SqlTaskPrivate.materialize (badTask.execute demoDriver QSqlDatabase.invalid)).count = 0 ∧
    (SqlTaskPrivate.materialize (badTask.execute demoDriver QSqlDatabase.invalid)).isValid
      = false :=
  ⟨by decide, by decide,
   ((C12_one_delivery_amended badTask demoDriver).1 3 ConnectionManager.new AsyncQuery.new
      (Or.inr (by decide))).elim
     (fun c h => h.elim (fun r hr => ⟨c, r, hr.1, hr.2.2.2⟩)),
   (((C12_one_delivery_amended badTask demoDriver).2 QSqlDatabase.invalid).2.2
      (by decide) (by decide)).1,
   (((C12_one_delivery_amended badTask demoDriver).2 QSqlDatabase.invalid).2.2
      (by decide) (by decide)).2.1,
   ((((C12_one_delivery_amended badTask demoDriver).2 QSqlDatabase.invalid).2.2
      (by decide) (by decide)).2.2).2 (by decide)⟩

/-! ## Configuration -/

/-- C13 (open applies the whole configuration) fails for the numeric-precision
policy. The handle `open()` creates takes the manager's driver type, host,
port, database name, user name and password, for every manager and thread, but
its precision policy is always the library's default `LowPrecisionDouble`,
whatever `setNumericalPrecisionPolicy` stored. On a manager configured with
`HighPrecision`, `open()` on thread 1 succeeds and registers a connection whose
policy is `LowPrecisionDouble`. -/
theorem C13_precision_policy_not_applied :
    (∀ (c : ConnectionManager) (T : Nat),
      (c.newConnection T).driverType = c.type ∧
      (c.newConnection T).hostName = c.hostName ∧
      (c.newConnection T).port = c.port ∧
      (c.newConnection T).databaseName = c.databaseName ∧
      (c.newConnection T).userName = c.userName ∧
      (c.newConnection T).password = c.password ∧
      (c.newConnection T).precisionPolicy = NumericalPrecisionPolicy.LowPrecisionDouble) ∧
    configuredManager.precisionPolicy = NumericalPrecisionPolicy.HighPrecision ∧
    (configuredManager.openConnection (fun _ => true) 1).1 = true ∧
    ((configuredManager.openConnection (fun _ => true) 1).2.threadConnection 1).hostName
      = "dbhost" ∧
    ((configuredManager.openConnection (fun _ => true) 1).2.threadConnection 1).precisionPolicy
      = NumericalPrecisionPolicy.LowPrecisionDouble ∧
    ((configuredManager.openConnection (fun _ => true) 1).2.threadConnection 1).precisionPolicy
      ≠ configuredManager.precisionPolicy := by
  refine ⟨fun c T => ⟨rfl, rfl, rfl, rfl, rfl, rfl, rfl⟩, by decide, by decide, by decide,
    by decide, by decide⟩

/-! ## waitDone on an idle scheduler -/

/-- C14 (waitDone on an idle scheduler). For every timeout, and whatever the
wait condition would answer, `waitDone` on a scheduler with no task in flight
returns `true` without reaching the wait: it only takes and releases the
mutex. In the world the call is a step that leaves the scheduler (mode,
in-flight count, queue, last result, delay, current request), the pool and the
blocked threads as they were and records the return of `true`. -/
theorem C14_wait_done_idle (s : AsyncQuery) (msTimout : Nat) (woken : Bool)
    (hidle : s.taskCnt = 0) :
    (s.waitDone msTimout woken).1 = true ∧
    (s.waitDone msTimout woken).2.1 = false ∧
    (s.waitDone msTimout woken).2.2 = [Event.lock, Event.unlock] ∧
    (∀ w : World, w.sched = s →
      ∃ w2, w.step (Action.waitDone msTimout) = some w2 ∧
        w2.sched = w.sched ∧ w2.pool = w.pool ∧ w2.blocked = w.blocked ∧
        w2.waitReturns = w.waitReturns ++ [(true, 0)]) := by
  have hc : ¬ s.taskCnt > 0 := by rw [hidle]; decide
  refine ⟨?_, ?_, ?_, ?_⟩
  · simp [AsyncQuery.waitDone, hc]
  · simp [AsyncQuery.waitDone, hc]
  · simp [AsyncQuery.waitDone, hc]
  · intro w hw
    subst hw
    have hstep : w.step (Action.waitDone msTimout) =
        some { w with waitReturns := w.waitReturns ++ [(true, w.sched.taskCnt)],
                      trace := w.trace ++ [Event.lock, Event.unlock] } := by
      simp [World.step, AsyncQuery.waitDone, hc]
    refine ⟨_, hstep, rfl, rfl, rfl, ?_⟩
    simp [hidle]

/-- C14 at a new scheduler and a timeout of 1000 ms. -/
theorem C14_wait_done_idle_witness :
    AsyncQuery.new.taskCnt = 0 ∧
    (AsyncQuery.new.waitDone 1000 false).1 = true ∧
    (AsyncQuery.new.waitDone 1000 false).2.1 = false :=
  ⟨rfl, (C14_wait_done_idle AsyncQuery.new 1000 false rfl).1,
   (C14_wait_done_idle AsyncQuery.new 1000 false rfl).2.1⟩

/-! ## Task-count accounting -/

theorem countInv_step (w w2 : World) (a : Action) (hI : w.CountInv)
    (h : w.step a = some w2) : w2.CountInv := by
  obtain ⟨hc, hs⟩ := hI
  refine ⟨count_step w w2 a hc h, ?_⟩
  rcases step_kinds w w2 a h with hk | hk | hk | hk | hk
  · obtain ⟨_, _, _, _, h3, h4, _, _, _, h6⟩ := hk
    rw [h3, h4, h6, hs]
  · obtain ⟨_, _, _, _, h3, h4, _, _, _, h6⟩ := hk
    rw [h3, h4, h6]
    simp only [List.length_append, List.length_singleton]
    omega
  · obtain ⟨_, _, _, _, _, h3, h4, _, _, _, h6⟩ := hk
    rw [h3, h4, h6, hs]
  · obtain ⟨i, r, t, x, rest, _, ht, _, _, _, _, h3, h4, _, _, _, h6⟩ := hk
    have hi : i < w.pool.length := (List.getElem?_eq_some.1 ht).1
    rw [h3, h4, h6]
    simp only [List.length_append, List.length_singleton, List.length_eraseIdx, if_pos hi]
    omega
  · obtain ⟨i, r, t, _, ht, _, _, _, h3, h4, _, _, _, h6⟩ := hk
    have hi : i < w.pool.length := (List.getElem?_eq_some.1 ht).1
    rw [h3, h4, h6]
    simp only [List.length_append, List.length_singleton, List.length_eraseIdx, if_pos hi]
    omega

/-- C15 (task-count accounting). In every state reached from a new scheduler
by any sequence of actions, task completions being those of tasks in the pool:
the in-flight count is the number of tasks started and not yet completed; it
is not negative; whenever a task of the pool calls `taskCallback`, the
condition of `Q_ASSERT(_taskCnt > 0)` holds; and `isRunning()` is true exactly
when fewer tasks have completed than have been started. -/
theorem C15_task_count_accounting (acts : List Action) (w : World)
    (hrun : World.new.run acts = some w) :
    w.sched.taskCnt = (w.pool.length : Int) ∧
    (startedTasks w.trace).length = w.completed.length + w.pool.length ∧
    w.sched.taskCnt = ((startedTasks w.trace).length : Int) - (w.completed.length : Int) ∧
    0 ≤ w.sched.taskCnt ∧
    (∀ i r w2, w.step (Action.taskDone i r) = some w2 →
      w.sched.taskCallbackAssert = true) ∧
    (w.sched.isRunning.1 = true ↔ w.completed.length < (startedTasks w.trace).length) := by
  have h0 : World.new.CountInv := ⟨rfl, rfl⟩
  have hall : World.allows (fun _ _ => true) World.new acts = true :=
    allows_of_forall (fun _ => true) acts (fun _ _ => rfl) _
  have hI : w.CountInv :=
    run_invariant World.CountInv (fun _ _ => true)
      (fun w a w2 hI _ hs => countInv_step w w2 a hI hs) acts World.new w h0 hall hrun
  obtain ⟨hc, hs⟩ := hI
  refine ⟨hc, hs, by rw [hc, hs]; push_cast; ring, by rw [hc]; exact Int.natCast_nonneg _,
    ?_, ?_⟩
  · intro i r w2 hstep
    cases ht : w.pool[i]? with
    | none => simp [World.step, ht] at hstep
    | some t =>
      have hi : i < w.pool.length := (List.getElem?_eq_some.1 ht).1
      simp only [AsyncQuery.taskCallbackAssert, decide_eq_true_eq, hc]
      exact_mod_cast Nat.lt_of_le_of_lt (Nat.zero_le i) hi
  · simp only [AsyncQuery.isRunning, decide_eq_true_eq, hc, hs]
    constructor
    · intro h
      have : 0 < w.pool.length := by exact_mod_cast h
      omega
    · intro h
      have : 0 < w.pool.length := by omega
      exact_mod_cast this

/-- C15 at a concrete run with two busy periods: one task is still running. -/
theorem C15_task_count_accounting_witness :
    World.new.run busyDemo = some busyDemoWorld ∧
    (startedTasks busyDemoWorld.trace).length = 4 ∧
    busyDemoWorld.completed.length = 3 ∧
    busyDemoWorld.sched.taskCnt = 1 ∧
    busyDemoWorld.sched.taskCnt = (busyDemoWorld.pool.length : Int) :=
  ⟨by decide, by decide, by decide, by decide,
    (C15_task_count_accounting busyDemo busyDemoWorld (by decide)).1⟩

/-! ## Stranded requests -/

theorem idleInv_step (w w2 : World) (a : Action) (hI : w.IdleInv)
    (hok : setModeWhenIdle w a = true) (h : w.step a = some w2) : w2.IdleInv := by
  obtain ⟨hc, hz, hp⟩ := hI
  have hc2 := count_step w w2 a hc h
  have hpos : 0 ≤ w.sched.taskCnt := by rw [hc]; exact Int.natCast_nonneg _
  refine ⟨hc2, ?_⟩
  rcases step_kinds w w2 a h with hk | hk | hk | hk | hk
  · obtain ⟨_, _, h1, h2, _⟩ := hk
    rw [h1, h2]
    refine ⟨hz, ?_⟩
    cases a with
    | setMode m =>
      simp only [setModeWhenIdle, decide_eq_true_eq] at hok
      exact fun _ => hz hok
    | _ =>
      intro hm
      exact hp (by rw [← step_mode w w2 _ h rfl]; exact hm)
  · obtain ⟨ha, _, h1, h2, _⟩ := hk
    have hset : a.isSetMode = false := by
      cases a <;> simp [Action.isStartExec] at ha <;> rfl
    rw [h1, h2, step_mode w w2 a h hset]
    exact ⟨fun h0 => by omega, hp⟩
  · obtain ⟨ha, hne, hcnt, h1, _⟩ := hk
    have hset : a.isSetMode = false := by
      cases a <;> simp [Action.isStartExec] at ha <;> rfl
    rw [h1, step_mode w w2 a h hset]
    exact ⟨fun h0 => absurd h0 hcnt, fun hm => absurd hm hne⟩
  · obtain ⟨i, r, t, x, rest, he, ht, hne, _, h1, _⟩ := hk
    have hset : a.isSetMode = false := by rw [he]; rfl
    have hi : i < w.pool.length := (List.getElem?_eq_some.1 ht).1
    rw [h1, step_mode w w2 a h hset]
    refine ⟨fun h0 => ?_, fun hm => absurd hm hne⟩
    rw [hc] at h0
    have : w.pool.length = 0 := by exact_mod_cast h0
    omega
  · obtain ⟨i, r, t, he, _, hcase, _, h2, _⟩ := hk
    have hset : a.isSetMode = false := by rw [he]; rfl
    have hq : w.sched.ququ = [] := by
      rcases hcase with hcase | hcase
      · exact hp hcase
      · exact hcase
    rw [h2, step_mode w w2 a h hset]
    exact ⟨fun _ => hq, fun _ => hq⟩

/-- C16 (no stranded request without a mode change). In every state reached
from a new scheduler by a sequence of actions in which `setMode` is called
only while the in-flight count is zero, an in-flight count of zero implies an
empty pending queue. -/
theorem C16_no_stranded_request (acts : List Action) (w : World)
    (hguard : World.allows setModeWhenIdle World.new acts = true)
    (hrun : World.new.run acts = some w)
    (hidle : w.sched.taskCnt = 0) :
    w.sched.ququ = [] := by
  have h0 : World.new.IdleInv := ⟨rfl, fun _ => rfl, fun _ => rfl⟩
  have hI : w.IdleInv :=
    run_invariant World.IdleInv setModeWhenIdle
      (fun w a w2 hI hok hs => idleInv_step w w2 a hI hok hs) acts World.new w h0 hguard hrun
  exact hI.2.1 hidle

/-- C16 at a concrete run: Fifo mode set while idle, two requests, both tasks
completed. -/
theorem C16_no_stranded_request_witness :
    World.allows setModeWhenIdle World.new idleDemo = true ∧
    World.new.run idleDemo = some idleDemoWorld ∧
    idleDemoWorld.sched.taskCnt = 0 ∧
    idleDemoWorld.completed.length = 2 ∧
    idleDemoWorld.sched.ququ = [] :=
  ⟨by decide, by decide, by decide, by decide,
    C16_no_stranded_request idleDemo idleDemoWorld (by decide) (by decide) (by decide)⟩

/-! ## Bound values -/

theorem find_insert_same {κ ν : Type} [DecidableEq κ] [LT κ]
    [DecidableRel (fun a b : κ => a < b)] (k : κ) (v : ν) (m : List (κ × ν)) :
    QMap.find k (QMap.insert k v m) = some v := by
  induction m with
  | nil => simp [QMap.insert, QMap.find]
  | cons e m ih =>
    obtain ⟨k2, v2⟩ := e
    by_cases h1 : k = k2
    · simp [QMap.insert, QMap.find, h1]
    · by_cases h2 : k < k2
      · simp [QMap.insert, QMap.find, h1, h2]
      · simp [QMap.insert, QMap.find, h1, h2, ih]

theorem find_insert_ne {κ ν : Type} [DecidableEq κ] [LT κ]
    [DecidableRel (fun a b : κ => a < b)] (k t : κ) (v : ν) (m : List (κ × ν))
    (h : t ≠ k) : QMap.find t (QMap.insert k v m) = QMap.find t m := by
  induction m with
  | nil => simp [QMap.insert, QMap.find, h]
  | cons e m ih =>
    obtain ⟨k2, v2⟩ := e
    by_cases h1 : k = k2
    · subst h1
      simp [QMap.insert, QMap.find, h]
    · by_cases h2 : k < k2
      · simp [QMap.insert, QMap.find, h1, h2, h]
      · by_cases h3 : t = k2
        · simp [QMap.insert, QMap.find, h1, h2, h3]
        · simp [QMap.insert, QMap.find, h1, h2, h3, ih]

/-- Dispatching leaves the current request as it is. -/
theorem startExecIntern_curQuery (s : AsyncQuery) :
    s.startExecIntern.1.curQuery = s.curQuery := by
  simp only [AsyncQuery.startExecIntern, AsyncQuery.spawnCurrent, AsyncQuery.incTaskCount]
  split_ifs <;> rfl

/-- A completion leaves the current request as it is. -/
theorem taskCallback_curQuery (s : AsyncQuery) (r : AsyncQueryResult) :
    (s.taskCallback r).1.curQuery = s.curQuery := by
  simp only [AsyncQuery.taskCallback, AsyncQuery.taskCallbackLocked, AsyncQuery.decTaskCount]
  split_ifs <;> rfl

/-- Only `bindValue` changes what is bound to a name. -/
theorem step_bound (w w2 : World) (a : Action) (name : String) (h : w.step a = some w2) :
    QMap.find name w2.sched.curQuery.boundValues =
      bindStep name (QMap.find name w.sched.curQuery.boundValues) a := by
  cases a with
  | setMode m =>
    simp only [World.step, AsyncQuery.setMode, Option.some.injEq] at h
    subst h; rfl
  | setDelayMs ms =>
    simp only [World.step, AsyncQuery.setDelayMs, Option.some.injEq] at h
    subst h; rfl
  | prepare query =>
    simp only [World.step, AsyncQuery.prepare, Option.some.injEq] at h
    subst h; rfl
  | bindValue p v =>
    simp only [World.step, AsyncQuery.bindValue, Option.some.injEq] at h
    subst h
    simp only [bindStep]
    by_cases hn : name = p
    · subst hn
      rw [if_pos rfl]
      exact find_insert_same _ _ _
    · rw [if_neg hn]
      exact find_insert_ne _ _ _ _ hn
  | startExec =>
    simp only [World.step, AsyncQuery.startExec, Option.some.injEq] at h
    subst h
    simp only [World.afterDispatch, startExecIntern_curQuery, bindStep]
  | startExecQuery query =>
    simp only [World.step, AsyncQuery.startExecQuery, Option.some.injEq] at h
    subst h
    simp only [World.afterDispatch, startExecIntern_curQuery, bindStep]
  | waitDone ms =>
    by_cases hc : w.sched.taskCnt > 0
    · simp [World.step, AsyncQuery.waitDone, hc] at h
      subst h; rfl
    · simp [World.step, AsyncQuery.waitDone, hc] at h
      subst h; rfl
  | waitTimeout =>
    by_cases hb : w.blocked = 0
    · simp [World.step, hb] at h
    · simp [World.step, hb] at h
      subst h; rfl
  | taskDone i r =>
    cases ht : w.pool[i]? with
    | none => simp [World.step, ht] at h
    | some t =>
      simp only [World.step, ht, Option.some.injEq] at h
      subst h
      simp only [taskCallback_curQuery, bindStep]

theorem run_bound (acts : List Action) (w w2 : World) (name : String)
    (h : w.run acts = some w2) :
    QMap.find name w2.sched.curQuery.boundValues =
      acts.foldl (bindStep name) (QMap.find name w.sched.curQuery.boundValues) := by
  induction acts generalizing w with
  | nil =>
    simp only [World.run, Option.some.injEq] at h
    subst h; rfl
  | cons a as ih =>
    cases hs : w.step a with
    | none => simp [World.run, hs] at h
    | some w1 =>
      simp only [World.run, hs] at h
      rw [ih w1 h, step_bound w w1 a name hs, List.foldl_cons]

/-- C17 (bindings persist across requests). `prepare` replaces the text of the
current request and nothing else; neither `startExec()` nor `startExec(text)`
touches the bound values. So in every state reached from a new scheduler the
current request maps each name to the value most recently passed to
`bindValue` for it, whatever queries were prepared or dispatched in between;
the request `startExec()` then dispatches, which is started at once or put at
the end of the queue, is prepared, has the current text and carries exactly
these bindings; and `run` binds every one of them to the query. -/
theorem C17_bindings_persist :
    (∀ (s : AsyncQuery) (text : String),
      s.prepare text = { s with curQuery := { s.curQuery with query := text } } ∧
      (s.prepare text).curQuery.boundValues = s.curQuery.boundValues ∧
      (s.prepare text).curQuery.isPrepared = s.curQuery.isPrepared ∧
      (s.prepare text).curQuery.query = text) ∧
    (∀ (s : AsyncQuery) (text : String),
      s.startExec.1.curQuery.boundValues = s.curQuery.boundValues ∧
      (s.startExecQuery text).1.curQuery.boundValues = s.curQuery.boundValues) ∧
    (∀ (acts : List Action) (w : World), World.new.run acts = some w →
      (∀ name, QMap.find name w.sched.curQuery.boundValues = lastBound name acts) ∧
      (∀ w2, w.step Action.startExec = some w2 →
        ∃ R, w2.submitted = w.submitted ++ [R] ∧
          R.isPrepared = true ∧ R.query = w.sched.curQuery.query ∧
          (∀ name, QMap.find name R.boundValues = lastBound name acts) ∧
          (startedQueries w2.trace = startedQueries w.trace ++ [R] ∨
            ∃ pre, w2.sched.ququ = pre ++ [R]))) ∧
    (∀ (t : SqlTaskPrivate) (q : QSqlQuery),
      (t.bindAll q).bound = q.bound ++ t.query.boundValues) := by
  refine ⟨fun s text => ⟨rfl, rfl, rfl, rfl⟩, ?_, ?_, ?_⟩
  · intro s text
    exact ⟨by rw [AsyncQuery.startExec, startExecIntern_curQuery],
      by rw [AsyncQuery.startExecQuery, startExecIntern_curQuery]⟩
  · intro acts w hrun
    have hb : ∀ name, QMap.find name w.sched.curQuery.boundValues = lastBound name acts := by
      intro name
      rw [run_bound acts World.new w name hrun]
      rfl
    refine ⟨hb, ?_⟩
    intro w2 hstep
    have hcur : w2.sched.curQuery = { w.sched.curQuery with isPrepared := true } := by
      simp only [World.step, AsyncQuery.startExec, Option.some.injEq] at hstep
      subst hstep
      simp only [World.afterDispatch, startExecIntern_curQuery]
    have hR : ∀ name, QMap.find name w2.sched.curQuery.boundValues = lastBound name acts := by
      intro name
      rw [hcur]
      exact hb name
    rcases step_kinds w w2 Action.startExec hstep with hk | hk | hk | hk | hk
    · obtain ⟨h0, _⟩ := hk
      simp [Action.isStartExec] at h0
    · obtain ⟨_, _, _, _, _, h4, _, _, h5, _⟩ := hk
      refine ⟨w2.sched.curQuery, h5, by rw [hcur], by rw [hcur], hR, Or.inl ?_⟩
      simp only [startedQueries]
      rw [h4]; simp
    · obtain ⟨_, _, _, _, h2, _, _, _, _, h5, _⟩ := hk
      exact ⟨w2.sched.curQuery, h5, by rw [hcur], by rw [hcur], hR, Or.inr ⟨_, h2⟩⟩
    · obtain ⟨i, r, _, _, _, he, _⟩ := hk
      cases he
    · obtain ⟨i, r, _, he, _⟩ := hk
      cases he
  · intro t q
    exact (bindAll_fold t.query.boundValues q).2.2.2

/-- C17 at a concrete run: `:price` bound for a first query is still bound
after a second query is prepared, and `:limit` has the value bound last. -/
theorem C17_bindings_persist_witness :
    World.new.run bindDemo = some bindDemoWorld ∧
    bindDemoWorld.sched.curQuery.query = "SELECT * FROM Orders LIMIT :limit" ∧
    QMap.find ":price" bindDemoWorld.sched.curQuery.boundValues = some (QVariant.int 10) ∧
    QMap.find ":limit" bindDemoWorld.sched.curQuery.boundValues = some (QVariant.int 5) ∧
    QMap.find ":price" bindDemoWorld.sched.curQuery.boundValues = lastBound ":price" bindDemo :=
  ⟨by decide, by decide, by decide, by decide,
    (C17_bindings_persist.2.2.1 bindDemo bindDemoWorld (by decide)).1 ":price"⟩

/-! ## The completion at the grain of the mutex -/

end Database
